import Mathlib

/-!
Verification of the PPMI curation scripts (`tabular/filter_image_descriptions.py`
and `tabular/generate_manifest.py`).

The two scripts are deterministic batch transformations over tabular data.  We
embed them shallowly: a dataframe row becomes a structure, a dataframe becomes a
`List` of such structures, pandas string matching becomes explicit functions on
`List Char`, Python dicts become association lists with in-place overwrite, and
fatal errors (`raise`) become `Except.error`.  Logged warnings are collected in
a `List String` so that warn-vs-fail policies can be stated.

Strings are compared by code point exactly as Python compares `str` values; the
`.lower()` calls of the scripts are modelled by `Char.toLower` on each character
(the data handled by the scripts is plain ASCII).  Pandas' `Series.str.contains`
is called by the scripts on `'|'.join(substrings)`: for a non-empty list this is
an any-of substring test (the substrings used contain no regex metacharacters),
and for the empty list it is the empty pattern, which matches every string; both
behaviours are reproduced.
-/

/-! ## String utilities -/

/-- Case-lowering, as applied by the scripts' `.lower()` calls. -/
def lowerChars (s : String) : List Char :=
  s.data.map Char.toLower

/-- Check that the first list is an initial segment of the second. -/
def charsStartWith : List Char → List Char → Bool
  | [], _ => true
  | _ :: _, [] => false
  | p :: ps, c :: cs => p == c && charsStartWith ps cs

/-- Contiguous-substring test on character lists (Python's `in` / pandas
`str.contains` with a literal pattern). -/
def charsContain (pat : List Char) : List Char → Bool
  | [] => pat.isEmpty
  | c :: cs => charsStartWith pat (c :: cs) || charsContain pat cs

/-- Case-insensitive substring test: models
`s.lower().contains(pat.lower())`. -/
def containsSubCI (s pat : String) : Bool :=
  charsContain (lowerChars pat) (lowerChars s)

/-- Models `series.str.lower().str.contains('|'.join(substrings).lower())` for a
single string: any-of matching, with the empty join matching everything. -/
def containsAnyCI (substrings : List String) (s : String) : Bool :=
  match substrings with
  | [] => true
  | _ => substrings.any (fun sub => containsSubCI s sub)

/-- Deduplication keeping the first occurrence, as pandas `drop_duplicates` /
`~index.duplicated()` do. -/
def uniqueFirst {α : Type} [BEq α] (l : List α) : List α :=
  l.foldl (fun acc x => if acc.contains x then acc else acc ++ [x]) []

/-- Code-point lexicographic order on character lists; this is the order Python
uses to compare and sort `str` values. -/
def charsLe : List Char → List Char → Bool
  | [], _ => true
  | _ :: _, [] => false
  | a :: as, b :: bs =>
    if a.toNat < b.toNat then true
    else if a.toNat == b.toNat then charsLe as bs
    else false

/-- Python's `<=` on strings. -/
def strLe (a b : String) : Bool :=
  charsLe a.data b.data

/-- `strLe` as a relation, for use with `List.insertionSort`. -/
def strLeProp (a b : String) : Prop :=
  strLe a b = true

instance : DecidableRel strLeProp :=
  fun a b => inferInstanceAs (Decidable (strLe a b = true))

/-- Ascending sort of a list of strings — Python's `sorted` /
pandas `sort_values`. -/
def sortStrings (l : List String) : List String :=
  List.insertionSort strLeProp l

/-! ## Description classifier (`tabular/filter_image_descriptions.py`)

One row of the imaging-availability export, with the three columns the
classifier reads.  The protocol column can be missing (`NaN`), hence `Option`.
-/

structure ImagingRecord where
  description : String
  modality : String
  protocol : Option String
deriving DecidableEq, Repr

/-- The keyword arguments of `filter_descriptions` (its `df` and `datatype`
parameters are passed separately).  The concrete rule sets live in
`tabular/filters.py`, which is not part of the sources; rules are therefore
kept abstract and quantified over. -/
structure FilterRule where
  common_substrings : List String
  reject_substrings : Option (List String)
  reject_substrings_exceptions : Option (List String)
  exclude_in : Option (List String)
  exclude_out : Option (List String)
  protocol_include : Option (List String)
  protocol_exclude : Option (List String)
deriving DecidableEq, Repr

/-- `df[COL_PROTOCOL_IMAGING].str.lower().str.contains(pattern, na=False)` for
one row: a missing protocol value never matches. -/
def protocolContains (subs : List String) (r : ImagingRecord) : Bool :=
  match r.protocol with
  | none => false
  | some p => containsAnyCI subs p

/-- Lines 196-208: optional include then exclude filtering on the protocol
column.  Under `~contains(..., na=False)` a missing protocol survives the
exclude filter, as in the source. -/
def applyProtocolFilters (rule : FilterRule) (df : List ImagingRecord) : List ImagingRecord :=
  let df1 := match rule.protocol_include with
    | none => df
    | some subs => df.filter (fun r => protocolContains subs r)
  match rule.protocol_exclude with
  | none => df1
  | some subs => df1.filter (fun r => !(protocolContains subs r))

/-- Line 211: `df.loc[df[COL_MODALITY_IMAGING] == modality]`. -/
def modalityRows (modality : String) (df : List ImagingRecord) : List ImagingRecord :=
  df.filter (fun r => r.modality == modality)

/-- Line 212: the distinct description strings of the within-modality rows.
`value_counts` orders by frequency; only the set of index values is ever used
downstream (every later step filters or re-sorts), so first-occurrence order is
used here. -/
def baseDescriptions (modality : String) (df : List ImagingRecord) : List String :=
  uniqueFirst ((modalityRows modality df).map (fun r => r.description))

/-- Lines 216-217: remove the descriptions listed in `exclude_in` (exact
match), guarded by `exclude_in is not None and len(exclude_in) > 0`. -/
def descriptionsAfterExcludeIn (rule : FilterRule) (descs : List String) : List String :=
  match rule.exclude_in with
  | none => descs
  | some excl => if 0 < excl.length then descs.filter (fun d => !(excl.contains d)) else descs

/-- Lines 225-241: rejection by substring with exceptions.  The exception rows
are computed from the pre-rejection set, concatenated after the survivors, and
duplicate index entries are dropped keeping the first. -/
def descriptionsAfterReject (rule : FilterRule) (descs : List String) : List String :=
  match rule.reject_substrings with
  | none => descs
  | some rej =>
    if 0 < rej.length then
      let keep := match rule.reject_substrings_exceptions with
        | none => []
        | some exc => descs.filter (fun d => containsAnyCI exc d)
      uniqueFirst (descs.filter (fun d => !(containsAnyCI rej d)) ++ keep)
    else descs

/-- Line 253: the rows outside the target modality (complement of
`modalityRows` within the protocol-filtered frame). -/
def otherModalityRows (modality : String) (df : List ImagingRecord) : List ImagingRecord :=
  df.filter (fun r => !(r.modality == modality))

/-- Lines 257-260: drop rows whose description is in `exclude_out`. -/
def otherRowsAfterExcludeOut (rule : FilterRule) (rows : List ImagingRecord) : List ImagingRecord :=
  match rule.exclude_out with
  | none => rows
  | some excl => if 0 < excl.length then rows.filter (fun r => !(excl.contains r.description)) else rows

/-- Lines 278-284: descriptions recovered from other modalities — they contain
a common substring and are not already in the current survivor set. -/
def newDescriptions (rule : FilterRule) (modality : String) (df : List ImagingRecord)
    (current : List String) : List String :=
  uniqueFirst (((otherRowsAfterExcludeOut rule (otherModalityRows modality df)).filter
    (fun r => containsAnyCI rule.common_substrings r.description
      && !(current.contains r.description))).map (fun r => r.description))

/-- `filter_descriptions` (lines 155-297).  `modality` stands for
`DATATYPE_MODALITY_MAP[datatype]`; all four anatomical subtypes map to the same
anatomical modality value.  The returned list is
`sorted(concat(survivors, recovered).drop_duplicates())` exactly as on
line 295. -/
def filter_descriptions (modality : String) (df : List ImagingRecord) (rule : FilterRule) :
    List String :=
  let df1 := applyProtocolFilters rule df
  let descs1 := descriptionsAfterExcludeIn rule (baseDescriptions modality df1)
  let descs2 := descriptionsAfterReject rule descs1
  sortStrings (uniqueFirst (descs2 ++ newDescriptions rule modality df1 descs2))

/-- Replace a rule's `exclude_in` with the list passed explicitly by `run`
(the rule dictionaries merged in `run` carry no `exclude_in` key of their own,
or Python would raise a duplicate-keyword error). -/
def withExcludeIn (rule : FilterRule) (excl : List String) : FilterRule :=
  { rule with exclude_in := some excl }

/-- Lines 84-122 of `run`: the anatomical subtype chain.  T1 is classified with
`EXCLUDE_IN_ANAT_T1`; T2 excludes `EXCLUDE_IN_ANAT` plus T1's result; T2-star
excludes `EXCLUDE_IN_ANAT` plus T1's and T2's results; FLAIR excludes
`EXCLUDE_IN_ANAT` plus T1's and T2's results (the source does not add
T2-star's result on line 119).  The two exclusion constants come from the
missing `tabular/filters.py` and are parameters. -/
def runAnatChain (modality : String) (df : List ImagingRecord)
    (excludeInAnat excludeInAnatT1 : List String)
    (ruleT1 ruleT2 ruleT2star ruleFlair : FilterRule) :
    List String × List String × List String × List String :=
  let t1 := filter_descriptions modality df (withExcludeIn ruleT1 excludeInAnatT1)
  let t2 := filter_descriptions modality df (withExcludeIn ruleT2 (excludeInAnat ++ t1))
  let t2star := filter_descriptions modality df (withExcludeIn ruleT2star (excludeInAnat ++ t1 ++ t2))
  let flair := filter_descriptions modality df (withExcludeIn ruleFlair (excludeInAnat ++ t1 ++ t2))
  (t1, t2, t2star, flair)

/-! ## The persisted classification artifact

The JSON written by the classifier maps each datatype key either to a flat list
of descriptions (`dwi`, `func`) or to a nested dict from subtype keys to lists
(`anat`).  Python dict ordering (insertion order) is preserved by using
association lists. -/

inductive DescNode where
  | flat (descs : List String)
  | nested (entries : List (String × List String))
deriving DecidableEq, Repr

/-- What `for description in descriptions:` iterates over in
`generate_manifest.run` (lines 141-144): the elements of a list, but the KEYS
of a dict. -/
def iterDescriptions : DescNode → List String
  | .flat l => l
  | .nested entries => entries.map (fun e => e.1)

/-- `get_all_descriptions` (lines 300-314): recursively flatten the nested
mapping into the concatenation of all description lists, in iteration order. -/
def get_all_descriptions (dmap : List (String × DescNode)) : List String :=
  (dmap.map (fun e => match e.2 with
    | .flat l => l
    | .nested entries => (entries.map (fun s => s.2)).flatten)).flatten

/-- Lines 147-151 of `filter_image_descriptions.run`: the secondary artifact —
all distinct source descriptions not classified anywhere, sorted. -/
def ignoredDescriptions (df : List ImagingRecord) (descriptions_all : List String) : List String :=
  sortStrings (uniqueFirst ((df.filter
    (fun r => !(descriptions_all.contains r.description))).map (fun r => r.description)))

/-! ## Manifest builder (`tabular/generate_manifest.py`) -/

/-- Modelled from the spec: the BIDS datatype identifiers defined in
`tabular/filters.py`, which is not among the sources.  The source comment in
`filter_image_descriptions.py` (lines 9-13) and the spec's glossary identify
them as the standard BIDS folder names for the anatomical, diffusion and
functional datatypes. -/
def DATATYPE_ANAT : String := "anat"

/-- Modelled from the spec: see `DATATYPE_ANAT`. -/
def DATATYPE_DWI : String := "dwi"

/-- Modelled from the spec: see `DATATYPE_ANAT`. -/
def DATATYPE_FUNC : String := "func"

/-- Line 61: the datatypes recognized when reversing the classification. -/
def DATATYPES : List String := [DATATYPE_ANAT, DATATYPE_DWI, DATATYPE_FUNC]

/-- Lines 40-52. -/
def VISIT_IMAGING_MAP : List (String × String) :=
  [("Baseline", "BL"), ("Month 6", "R01"), ("Month 12", "V04"), ("Month 24", "V06"),
   ("Month 36", "V08"), ("Month 48", "V10"), ("Screening", "SC"),
   ("Premature Withdrawal", "PW"), ("Symptomatic Therapy", "ST"),
   ("Unscheduled Visit 01", "U01"), ("Unscheduled Visit 02", "U02")]

/-- Lines 53-60. -/
def GROUP_IMAGING_MAP : List (String × String) :=
  [("PD", "Parkinson\x27s Disease"), ("Prodromal", "Prodromal"), ("Control", "Healthy Control"),
   ("Phantom", "Phantom"), ("SWEDD", "SWEDD"), ("GenReg Unaff", "GenReg Unaff")]

/-- Lines 66-78. -/
def VISIT_SESSION_MAP : List (String × String) :=
  [("BL", "1"), ("V04", "5"), ("V06", "7"), ("V08", "9"), ("V10", "11"), ("PW", "30"),
   ("ST", "21"), ("U02", "91"), ("U01", "90"), ("SC", "0"), ("R01", "3")]

/-- Line 19. -/
def GROUPS_KEEP : List String :=
  ["Parkinson\x27s Disease", "Prodromal", "Healthy Control", "SWEDD", "GenReg Unaff"]

/-- One row of the imaging-availability export as read by the manifest builder
(all columns read as `str`). -/
structure ImagingEntry where
  subject : String
  visit : String
  group : String
  description : String
deriving DecidableEq, Repr

/-- One row of a clinical tabular export (the two required columns). -/
structure TabularEntry where
  subject : String
  visit : String
deriving DecidableEq, Repr

/-- One row of the participant-status export. -/
structure GroupEntry where
  subject : String
  group : String
deriving DecidableEq, Repr

/-- An imaging row after the normalization of lines 155-177: visit replaced by
its canonical code, session derived from the code (possibly missing), group
replaced by its tabular name. -/
structure ImagingNormalized where
  subject : String
  visit : String
  session : Option String
  group : String
  description : String
deriving DecidableEq, Repr

/-- A tabular row after the left merge with the participant-status table
(line 191); the group is missing when the subject has no status row. -/
structure TabularWithGroup where
  subject : String
  visit : String
  group : Option String
deriving DecidableEq, Repr

/-- An imaging row after the aggregation of lines 264-268: one row per
(subject, visit, session) group, carrying the list of available datatypes. -/
structure ImagingAgg where
  subject : String
  visit : String
  session : String
  datatype : List String
deriving DecidableEq, Repr

/-- A row of the final manifest.  The `participant_dicom_dir` placeholder and
the `bids_id` column resolved through the external DICOM-to-BIDS catalog are
out of scope (per the spec they are format adapters / external collaborators),
so only the four computed columns are modelled. -/
structure ManifestRow where
  subject : String
  visit : String
  session : Option String
  datatype : List String
deriving DecidableEq, Repr

/-- Python dict assignment `m[k] = v`: overwrite in place if the key exists,
append otherwise. -/
def dictInsert : List (String × String) → String → String → List (String × String)
  | [], k, v => [(k, v)]
  | p :: rest, k, v => if p.1 == k then (k, v) :: rest else p :: dictInsert rest k v

/-- Python dict lookup. -/
def lookupAssoc (m : List (String × String)) (k : String) : Option String :=
  List.lookup k m

/-- The body of the inner loop of lines 141-144: warn if the description is
already mapped, then assign. -/
def revStep (acc : List (String × String) × List String) (description datatype : String) :
    List (String × String) × List String :=
  let warns := if acc.1.any (fun p => p.1 == description) then
      acc.2 ++ ["Description " ++ description ++ " has more than one associated datatype"]
    else acc.2
  (dictInsert acc.1 description datatype, warns)

/-- Lines 136-144 of `generate_manifest.run`: reverse the loaded classification
mapping into a description-to-datatype dict, skipping keys not in `DATATYPES`,
collecting a warning per duplicate description.  For the nested anatomical
value, the Python `for` loop ranges over the dict's keys
(see `iterDescriptions`). -/
def reverseDescriptionsMap (dmap : List (String × DescNode)) :
    List (String × String) × List String :=
  dmap.foldl (fun acc entry =>
    if DATATYPES.contains entry.1 then
      (iterDescriptions entry.2).foldl (fun a d => revStep a d entry.1) acc
    else acc) ([], [])

/-- The (description, datatype) assignments executed by the loop of lines
136-144, in execution order. -/
def processedPairs (dmap : List (String × DescNode)) : List (String × String) :=
  ((dmap.filter (fun e => DATATYPES.contains e.1)).map
    (fun e => (iterDescriptions e.2).map (fun d => (d, e.1)))).flatten

/-- The datatype of the last assignment for a given description ("last write"),
if any. -/
def lastAssign (pairs : List (String × String)) (k : String) : Option String :=
  (pairs.reverse.find? (fun p => p.1 == k)).map (fun p => p.2)

/-- Lines 155-177 of `run`: visit labels must all map through the visit map
(fatal on the first failure, as the vectorized `apply` raises `KeyError`);
the session is a best-effort lookup of the visit code with a warning when any
code is unmapped; group labels must all map (fatal).  The three maps are passed
in; `run` uses the module constants `VISIT_IMAGING_MAP`, `VISIT_SESSION_MAP`
and `GROUP_IMAGING_MAP`. -/
def normalizeImaging (visitMap sessionMap groupMap : List (String × String))
    (rows : List ImagingEntry) : Except String (List ImagingNormalized × List String) :=
  match rows.find? (fun r => (List.lookup r.visit visitMap).isNone) with
  | some r => Except.error ("Found visit without mapping in VISIT_IMAGING_MAP: " ++ r.visit)
  | none =>
    match rows.find? (fun r => (List.lookup r.group groupMap).isNone) with
    | some r => Except.error ("Found group without mapping in GROUP_IMAGING_MAP: " ++ r.group)
    | none =>
      let mapped := rows.map (fun r =>
        let code := (List.lookup r.visit visitMap).getD r.visit
        { subject := r.subject, visit := code,
          session := List.lookup code sessionMap,
          group := (List.lookup r.group groupMap).getD r.group,
          description := r.description })
      let missing := (mapped.map (fun r => r.visit)).filter
        (fun v => (List.lookup v sessionMap).isNone)
      let warnings := if missing.isEmpty then []
        else ["Missing mapping(s) in VISIT_SESSION_MAP"]
      Except.ok (mapped, warnings)

/-- Lines 126-131: concatenate the tabular files and deduplicate by
(subject, visit), keeping the first occurrence. -/
def dropDuplicateSubjectVisit (rows : List TabularEntry) : List TabularEntry :=
  rows.foldl (fun acc r =>
    if acc.any (fun r2 => r2.subject == r.subject && r2.visit == r.visit) then acc
    else acc ++ [r]) []

/-- Line 191: left merge of the tabular rows with the participant-status table
on the subject column — one output row per (tabular row, matching status row)
pair, or a single row with a missing group when no status row matches. -/
def mergeGroup (tab : List TabularEntry) (groups : List GroupEntry) : List TabularWithGroup :=
  (tab.map (fun r =>
    match groups.filter (fun g => g.subject == r.subject) with
    | [] => [{ subject := r.subject, visit := r.visit, group := none }]
    | ms => ms.map (fun g => { subject := r.subject, visit := r.visit, group := some g.group })
    )).flatten

/-- Lines 204-216: for a tabular row without a group, use the imaging rows of
the same subject when they determine a unique group (`Series.item()` succeeds
exactly when the deduplicated series has one element). -/
def fillGroupFromImaging (imaging : List ImagingNormalized) (row : TabularWithGroup) :
    TabularWithGroup :=
  match row.group with
  | some _ => row
  | none =>
    match uniqueFirst ((imaging.filter (fun r => r.subject == row.subject)).map
        (fun r => r.group)) with
    | [g] => { row with group := some g }
    | _ => row

/-- Lines 375-384, `get_datatype_list`: map each description through the
reversed mapping, silently dropping unmapped ones, deduplicate and sort. -/
def get_datatype_list (descriptions : List String) (ddmap : List (String × String)) :
    List String :=
  sortStrings (uniqueFirst (descriptions.filterMap (fun d => lookupAssoc ddmap d)))

/-- The grouping key of lines 265: (subject, visit, session). -/
def imagingKeyOf (r : ImagingNormalized) : String × String × String :=
  (r.subject, r.visit, r.session.getD "")

/-- Lines 264-268: group the imaging rows by (subject, visit, session) and
aggregate each group's descriptions into a datatype list.  Pandas `groupby`
silently drops rows with a missing key, and emits one row per distinct key;
key order is irrelevant here because the manifest is re-sorted later, so
first-occurrence order is used. -/
def groupImaging (rows : List ImagingNormalized) (ddmap : List (String × String)) :
    List ImagingAgg :=
  let rows1 := rows.filter (fun r => r.session.isSome)
  (uniqueFirst (rows1.map imagingKeyOf)).map (fun k =>
    { subject := k.1, visit := k.2.1, session := k.2.2,
      datatype := get_datatype_list
        ((rows1.filter (fun r => imagingKeyOf r == k)).map (fun r => r.description)) ddmap })

/-- The tabular side of `run` up to the merge of line 293: concatenation and
deduplication (lines 126-131), the group merge (line 191), the best-effort
group fill from imaging (lines 193-224), and the keep-list filter (line 285,
under which a still-missing group fails `isin` and is dropped). -/
def filteredTabular (tabularFiles : List (List TabularEntry)) (groupTable : List GroupEntry)
    (img1 : List ImagingNormalized) : List TabularWithGroup :=
  let tab0 := dropDuplicateSubjectVisit tabularFiles.flatten
  let tab2 := (mergeGroup tab0 groupTable).map (fillGroupFromImaging img1)
  tab2.filter (fun r => match r.group with
    | some g => GROUPS_KEEP.contains g
    | none => false)

/-- The imaging side of `run` up to the merge of line 293: keep sessions listed
in the configuration (line 242, where a missing session fails `isin`), keep
subjects in `GROUPS_KEEP` (line 257), then aggregate (lines 264-268). -/
def filteredImaging (img1 : List ImagingNormalized) (sessionsConfig : List String)
    (ddmap : List (String × String)) : List ImagingAgg :=
  let img2 := img1.filter (fun r => match r.session with
    | some s => sessionsConfig.contains s
    | none => false)
  groupImaging (img2.filter (fun r => GROUPS_KEEP.contains r.group)) ddmap

/-- A row of the outer merge of lines 292-295 before the datatype and session
post-processing; `session` and `datatype` are missing on rows with no imaging
match. -/
structure MergedRow where
  subject : String
  visit : String
  session : Option String
  datatype : Option (List String)
deriving DecidableEq, Repr

/-- Lines 292-295: `df_tabular.merge(df_imaging, how='outer', on=[subject,
visit])` — matched pairs, then tabular-only rows, then imaging-only rows (row
order is irrelevant: the manifest is sorted afterwards). -/
def outerMerge (tab : List TabularWithGroup) (img : List ImagingAgg) : List MergedRow :=
  let matched := (tab.map (fun t =>
    (img.filter (fun i => i.subject == t.subject && i.visit == t.visit)).map (fun i =>
      { subject := t.subject, visit := t.visit,
        session := some i.session, datatype := some i.datatype }))).flatten
  let leftOnly := (tab.filter (fun t =>
    !(img.any (fun i => i.subject == t.subject && i.visit == t.visit)))).map
    (fun t => { subject := t.subject, visit := t.visit, session := none, datatype := none })
  let rightOnly := (img.filter (fun i =>
    !(tab.any (fun t => i.subject == t.subject && i.visit == t.visit)))).map
    (fun i =>
      { subject := i.subject, visit := i.visit,
        session := some i.session, datatype := some i.datatype })
  matched ++ leftOnly ++ rightOnly

/-- Row order used on line 323: `sort_values([COL_SUBJECT_MANIFEST,
COL_VISIT_MANIFEST])` — by subject, then by visit. -/
def manifestLeB (a b : ManifestRow) : Bool :=
  if a.subject == b.subject then strLe a.visit b.visit else strLe a.subject b.subject

/-- `manifestLeB` as a relation. -/
def manifestLeProp (a b : ManifestRow) : Prop :=
  manifestLeB a b = true

instance : DecidableRel manifestLeProp :=
  fun a b => inferInstanceAs (Decidable (manifestLeB a b = true))

/-- Lines 305-331: replace a missing datatype by the empty list (line 306),
prepend the `ses-` pattern to the session code (line 312), sort by subject then
visit and
reset the row index (lines 323-330) — list positions model the reset index. -/
def finalizeManifest (rows : List MergedRow) : List ManifestRow :=
  List.insertionSort manifestLeProp (rows.map (fun r =>
    { subject := r.subject, visit := r.visit,
      session := r.session.map (fun s => "ses-" ++ s),
      datatype := r.datatype.getD [] }))

/-- `run` (lines 101-347) up to the persistence step: validate that every
configured session has a visit mapped to it (lines 112, 369-373), normalize the
imaging rows, build both filtered sides and produce the sorted manifest.
Returns the manifest rows plus the collected warnings. -/
def buildManifest (tabularFiles : List (List TabularEntry)) (groupTable : List GroupEntry)
    (imaging : List ImagingEntry) (sessionsConfig : List String)
    (dmap : List (String × DescNode)) : Except String (List ManifestRow × List String) :=
  if !(sessionsConfig.filter
      (fun s => !((VISIT_SESSION_MAP.map (fun e => e.2)).contains s))).isEmpty then
    Except.error "Invalid VISIT_SESSION_MAP: must have an entry for each session in global_config"
  else
    match normalizeImaging VISIT_IMAGING_MAP VISIT_SESSION_MAP GROUP_IMAGING_MAP imaging with
    | Except.error e => Except.error e
    | Except.ok (img1, warns) =>
      let tabF := filteredTabular tabularFiles groupTable img1
      let imgF := filteredImaging img1 sessionsConfig (reverseDescriptionsMap dmap).1
      Except.ok (finalizeManifest (outerMerge tabF imgF), warns)

/-- Lines 349-364: the persistence policy.  File contents are modelled as the
parsed manifest (CSV serialization is an out-of-scope format adapter per the
spec).  Returns whether a write happened and the resulting file contents. -/
def persistManifest (built : List ManifestRow) (existing : Option (List ManifestRow))
    (overwrite : Bool) : Except String (Bool × List ManifestRow) :=
  match existing with
  | some old =>
    if built = old then Except.ok (false, old)
    else if !overwrite then
      Except.error "File exists: mr_proc_manifest.csv. Use --overwrite to overwrite"
    else Except.ok (true, built)
  | none => Except.ok (true, built)

/-- A whole invocation of the manifest builder: build, then persist against the
current file state. -/
def runPipeline (tabularFiles : List (List TabularEntry)) (groupTable : List GroupEntry)
    (imaging : List ImagingEntry) (sessionsConfig : List String)
    (dmap : List (String × DescNode)) (fileState : Option (List ManifestRow))
    (overwrite : Bool) : Except String (Bool × List ManifestRow) :=
  match buildManifest tabularFiles groupTable imaging sessionsConfig dmap with
  | Except.error e => Except.error e
  | Except.ok (rows, _) => persistManifest rows fileState overwrite

/-! ## Definitions used to state the claims -/

/-- Direct reading of the spec's "contains at least one of the given
substrings (case-insensitively)": genuinely false for an empty substring list
(unlike the joined-regex `containsAnyCI`, which the code uses and which matches
everything when the list is empty). -/
def containsAnyOf (subs : List String) (d : String) : Bool :=
  subs.any (fun sub => containsSubCI d sub)

/-- The claim's "the description contains at least one of the exception
substrings": false when no exception list is configured. -/
def exceptionsMatch (rule : FilterRule) (d : String) : Bool :=
  match rule.reject_substrings_exceptions with
  | none => false
  | some exc => containsAnyOf exc d

/-- Key test on a raw tabular row. -/
def tabEntryKeyIs (s v : String) (t : TabularEntry) : Bool :=
  t.subject == s && t.visit == v

/-- Key test on a merged tabular row. -/
def tabKeyIs (s v : String) (t : TabularWithGroup) : Bool :=
  t.subject == s && t.visit == v

/-- Key test on an aggregated imaging row. -/
def imgKeyIs (s v : String) (i : ImagingAgg) : Bool :=
  i.subject == s && i.visit == v

/-- Key test on a row of the outer merge. -/
def mergedKeyIs (s v : String) (r : MergedRow) : Bool :=
  r.subject == s && r.visit == v

/-- Key test on a manifest row. -/
def manifestKeyIs (s v : String) (r : ManifestRow) : Bool :=
  r.subject == s && r.visit == v

/-! ## Utility lemmas -/

theorem contains_iff_mem {α : Type} [BEq α] [LawfulBEq α] (l : List α) (x : α) :
    l.contains x = true ↔ x ∈ l := by
  simp [List.contains]

theorem uniqueFirstAux_mem {α : Type} [BEq α] [LawfulBEq α] (l : List α) :
    ∀ (acc : List α) (x : α),
      (x ∈ l.foldl (fun acc y => if acc.contains y then acc else acc ++ [y]) acc) ↔
        x ∈ acc ∨ x ∈ l := by
  induction l with
  | nil => simp
  | cons a as ih =>
    intro acc x
    simp only [List.foldl_cons]
    by_cases h : acc.contains a = true
    · rw [if_pos h, ih acc x]
      have ha : a ∈ acc := (contains_iff_mem acc a).mp h
      constructor
      · rintro (hx | hx)
        · exact Or.inl hx
        · exact Or.inr (List.mem_cons_of_mem a hx)
      · rintro (hx | hx)
        · exact Or.inl hx
        · rcases List.mem_cons.mp hx with rfl | hx
          · exact Or.inl ha
          · exact Or.inr hx
    · rw [if_neg h, ih (acc ++ [a]) x]
      simp only [List.mem_append, List.mem_singleton, List.mem_cons]
      tauto

theorem mem_uniqueFirst {α : Type} [BEq α] [LawfulBEq α] (l : List α) (x : α) :
    x ∈ uniqueFirst l ↔ x ∈ l := by
  unfold uniqueFirst
  rw [uniqueFirstAux_mem]
  simp

theorem uniqueFirstAux_nodup {α : Type} [BEq α] [LawfulBEq α] (l : List α) :
    ∀ acc : List α, acc.Nodup →
      (l.foldl (fun acc y => if acc.contains y then acc else acc ++ [y]) acc).Nodup := by
  induction l with
  | nil => intro acc h; simpa using h
  | cons a as ih =>
    intro acc hacc
    simp only [List.foldl_cons]
    by_cases h : acc.contains a = true
    · rw [if_pos h]; exact ih acc hacc
    · rw [if_neg h]
      refine ih (acc ++ [a]) ?_
      have ha : a ∉ acc := fun hmem => h ((contains_iff_mem acc a).mpr hmem)
      simpa [List.nodup_append] using ⟨hacc, ha⟩

theorem nodup_uniqueFirst {α : Type} [BEq α] [LawfulBEq α] (l : List α) :
    (uniqueFirst l).Nodup :=
  uniqueFirstAux_nodup l [] List.nodup_nil

theorem charsLe_total (a : List Char) : ∀ b : List Char,
    charsLe a b = true ∨ charsLe b a = true := by
  induction a with
  | nil => intro b; left; cases b <;> rfl
  | cons x xs ih =>
    intro b
    cases b with
    | nil => right; rfl
    | cons y ys =>
      rcases Nat.lt_trichotomy x.toNat y.toNat with h | h | h
      · left; simp [charsLe, h]
      · rcases ih ys with h2 | h2
        · left; simp [charsLe, h, h2, Nat.lt_irrefl]
        · right; simp [charsLe, h, h2, Nat.lt_irrefl]
      · right; simp [charsLe, h]

theorem charsLe_trans {a : List Char} : ∀ {b c : List Char},
    charsLe a b = true → charsLe b c = true → charsLe a c = true := by
  induction a with
  | nil => intro b c _ _; cases c <;> simp [charsLe]
  | cons x xs ih =>
    intro b c hab hbc
    cases b with
    | nil => simp [charsLe] at hab
    | cons y ys =>
      cases c with
      | nil => simp [charsLe] at hbc
      | cons z zs =>
        simp only [charsLe] at hab hbc ⊢
        by_cases hxy : x.toNat < y.toNat
        · by_cases hyz : y.toNat < z.toNat
          · have : x.toNat < z.toNat := Nat.lt_trans hxy hyz
            simp [this]
          · rw [if_neg hyz] at hbc
            by_cases hyz2 : y.toNat = z.toNat
            · have : x.toNat < z.toNat := hyz2 ▸ hxy
              simp [this]
            · simp [hyz2] at hbc
        · rw [if_neg hxy] at hab
          by_cases hxy2 : x.toNat = y.toNat
          · rw [if_pos (by simpa using hxy2)] at hab
            by_cases hyz : y.toNat < z.toNat
            · have : x.toNat < z.toNat := hxy2 ▸ hyz
              simp [this]
            · rw [if_neg hyz] at hbc
              by_cases hyz2 : y.toNat = z.toNat
              · have hxz : x.toNat = z.toNat := hxy2.trans hyz2
                rw [if_pos (by simpa using hyz2)] at hbc
                have : ¬ x.toNat < z.toNat := by omega
                simp [this, hxz, ih hab hbc]
              · simp [hyz2] at hbc
          · simp [hxy2] at hab

theorem charsLe_antisymm {a : List Char} : ∀ {b : List Char},
    charsLe a b = true → charsLe b a = true → a = b := by
  induction a with
  | nil => intro b hab hba; cases b with
    | nil => rfl
    | cons y ys => simp [charsLe] at hba
  | cons x xs ih =>
    intro b hab hba
    cases b with
    | nil => simp [charsLe] at hab
    | cons y ys =>
      simp only [charsLe] at hab hba
      by_cases hxy : x.toNat < y.toNat
      · have : ¬ y.toNat < x.toNat := by omega
        rw [if_neg this] at hba
        have : ¬ y.toNat = x.toNat := by omega
        simp [this] at hba
      · rw [if_neg hxy] at hab
        by_cases hxy2 : x.toNat = y.toNat
        · rw [if_pos (by simpa using hxy2)] at hab
          have : ¬ y.toNat < x.toNat := by omega
          rw [if_neg this, if_pos (by simp [hxy2.symm])] at hba
          have hchar : x = y := Char.ext (UInt32.ext hxy2)
          rw [hchar, ih hab hba]
        · simp [hxy2] at hab

theorem string_eq_of_data {a b : String} (h : a.data = b.data) : a = b :=
  congrArg String.mk h

theorem strLe_antisymm {a b : String} (hab : strLe a b = true) (hba : strLe b a = true) :
    a = b :=
  string_eq_of_data (charsLe_antisymm hab hba)

theorem sortStrings_perm (l : List String) : (sortStrings l).Perm l :=
  List.perm_insertionSort strLeProp l

theorem mem_sortStrings (l : List String) (x : String) : x ∈ sortStrings l ↔ x ∈ l :=
  (sortStrings_perm l).mem_iff

theorem sortStrings_sorted (l : List String) : (sortStrings l).Sorted strLeProp := by
  haveI : IsTotal String strLeProp := ⟨fun a b => charsLe_total a.data b.data⟩
  haveI : IsTrans String strLeProp := ⟨fun _ _ _ hab hbc => charsLe_trans hab hbc⟩
  exact List.sorted_insertionSort strLeProp l

theorem sortStrings_nodup {l : List String} (h : l.Nodup) : (sortStrings l).Nodup :=
  ((sortStrings_perm l).nodup_iff).mpr h

theorem manifestLe_total (a b : ManifestRow) : manifestLeProp a b ∨ manifestLeProp b a := by
  unfold manifestLeProp manifestLeB
  by_cases h : a.subject = b.subject
  · simp only [h, beq_self_eq_true, if_true]
    exact charsLe_total a.visit.data b.visit.data
  · have h1 : (a.subject == b.subject) = false := beq_false_of_ne h
    have h2 : (b.subject == a.subject) = false := beq_false_of_ne (Ne.symm h)
    simp only [h1, h2, if_false]
    exact charsLe_total a.subject.data b.subject.data

theorem manifestLe_trans (a b c : ManifestRow) :
    manifestLeProp a b → manifestLeProp b c → manifestLeProp a c := by
  unfold manifestLeProp manifestLeB
  by_cases hab : a.subject = b.subject <;> by_cases hbc : b.subject = c.subject
  · have hac : a.subject = c.subject := hab.trans hbc
    simp only [hab, hbc, hac, beq_self_eq_true, if_true]
    exact charsLe_trans
  · have hac : a.subject ≠ c.subject := fun h => hbc (hab.symm.trans h)
    simp only [hab, beq_self_eq_true, if_true, beq_false_of_ne hbc, beq_false_of_ne hac,
      if_false]
    intro _ h2
    exact hab ▸ h2
  · have hac : a.subject ≠ c.subject := fun h => hab (h.trans hbc.symm)
    simp only [hbc, beq_self_eq_true, if_true, beq_false_of_ne hab, beq_false_of_ne hac,
      if_false]
    intro h1 _
    exact hbc ▸ h1
  · simp only [beq_false_of_ne hab, beq_false_of_ne hbc, if_false]
    intro h1 h2
    by_cases hac : a.subject = c.subject
    · exfalso
      have : a.subject = b.subject := strLe_antisymm h1 (hac ▸ h2)
      exact hab this
    · simp only [beq_false_of_ne hac, if_false]
      exact charsLe_trans h1 h2

/-! ## Classifier lemmas -/

theorem mem_of_mem_descriptionsAfterReject {rule : FilterRule} {descs : List String}
    {d : String} (h : d ∈ descriptionsAfterReject rule descs) : d ∈ descs := by
  cases hrej : rule.reject_substrings with
  | none => simp only [descriptionsAfterReject, hrej] at h; exact h
  | some rej =>
    simp only [descriptionsAfterReject, hrej] at h
    by_cases hlen : 0 < rej.length
    · rw [if_pos hlen] at h
      rcases List.mem_append.mp ((mem_uniqueFirst _ _).mp h) with h1 | h1
      · exact (List.mem_filter.mp h1).1
      · cases hexc : rule.reject_substrings_exceptions with
        | none => rw [hexc] at h1; simp at h1
        | some exc => rw [hexc] at h1; exact (List.mem_filter.mp h1).1
    · rw [if_neg hlen] at h; exact h

theorem not_mem_excludeIn_of_mem_afterExcludeIn {rule : FilterRule} {descs : List String}
    {excl : List String} {d : String} (hx : rule.exclude_in = some excl)
    (h : d ∈ descriptionsAfterExcludeIn rule descs) : d ∉ excl := by
  simp only [descriptionsAfterExcludeIn, hx] at h
  by_cases hlen : 0 < excl.length
  · rw [if_pos hlen] at h
    intro hmem
    have := (List.mem_filter.mp h).2
    rw [Bool.not_eq_eq_eq_not, Bool.not_true] at this
    exact (Bool.not_eq_true _).mpr this ((contains_iff_mem excl d).mpr hmem)
  · rw [if_neg hlen] at h
    have : excl = [] := List.length_eq_zero.mp (Nat.le_zero.mp (Nat.not_lt.mp hlen))
    subst this
    exact List.not_mem_nil d

theorem mem_of_mem_applyProtocolFilters {rule : FilterRule} {df : List ImagingRecord}
    {r : ImagingRecord} (h : r ∈ applyProtocolFilters rule df) : r ∈ df := by
  cases hinc : rule.protocol_include <;> cases hexc : rule.protocol_exclude <;>
    simp only [applyProtocolFilters, hinc, hexc] at h <;>
    first
      | exact h
      | exact List.mem_of_mem_filter h
      | exact List.mem_of_mem_filter (List.mem_of_mem_filter h)

theorem otherModalityRows_eq_nil {m : String} {df : List ImagingRecord}
    (h : ∀ r ∈ df, r.modality = m) : otherModalityRows m df = [] := by
  unfold otherModalityRows
  rw [List.filter_eq_nil_iff]
  intro r hr
  simp [h r hr]

theorem otherRowsAfterExcludeOut_nil (rule : FilterRule) :
    otherRowsAfterExcludeOut rule [] = [] := by
  unfold otherRowsAfterExcludeOut
  cases rule.exclude_out <;> simp

theorem newDescriptions_eq_nil {rule : FilterRule} {m : String} {df : List ImagingRecord}
    {current : List String} (h : otherModalityRows m df = []) :
    newDescriptions rule m df current = [] := by
  unfold newDescriptions
  rw [h, otherRowsAfterExcludeOut_nil]
  rfl

/-- Within a record set entirely inside the target modality (so that no
cross-modality recovery happens), the classifier's output avoids every
description named in the rule's `exclude_in` list. -/
theorem filter_descriptions_avoids_excludeIn {m : String} {df : List ImagingRecord}
    {rule : FilterRule} {excl : List String} {d : String}
    (hmod : ∀ r ∈ df, r.modality = m) (hx : rule.exclude_in = some excl)
    (hd : d ∈ filter_descriptions m df rule) : d ∉ excl := by
  simp only [filter_descriptions] at hd
  have hmod1 : ∀ r ∈ applyProtocolFilters rule df, r.modality = m :=
    fun r hr => hmod r (mem_of_mem_applyProtocolFilters hr)
  rw [newDescriptions_eq_nil (otherModalityRows_eq_nil hmod1), List.append_nil] at hd
  have hd2 := (mem_uniqueFirst _ _).mp ((mem_sortStrings _ _).mp hd)
  exact not_mem_excludeIn_of_mem_afterExcludeIn hx (mem_of_mem_descriptionsAfterReject hd2)

theorem containsAnyCI_eq_containsAnyOf {subs : List String} (h : subs ≠ []) (s : String) :
    containsAnyCI subs s = containsAnyOf subs s := by
  cases subs with
  | nil => exact absurd rfl h
  | cons a l => rfl

theorem mem_afterReject_iff {rule : FilterRule} {descs : List String} {d : String}
    {rej : List String} (hrej : rule.reject_substrings = some rej) (hne : rej ≠ [])
    (hexc : rule.reject_substrings_exceptions = none ∨
      ∃ exc, rule.reject_substrings_exceptions = some exc ∧ exc ≠ [])
    (hd : d ∈ descs) :
    (d ∈ descriptionsAfterReject rule descs ↔
      (containsAnyOf rej d = false ∨ exceptionsMatch rule d = true)) := by
  have hlen : 0 < rej.length := List.length_pos.mpr hne
  simp only [descriptionsAfterReject, hrej, if_pos hlen]
  rcases hexc with hx | ⟨exc, hx, hexcne⟩
  · simp only [hx, exceptionsMatch, List.append_nil]
    rw [mem_uniqueFirst, List.mem_filter]
    rw [containsAnyCI_eq_containsAnyOf hne]
    constructor
    · rintro ⟨_, hb⟩
      left
      simpa using hb
    · rintro (hb | hb)
      · exact ⟨hd, by simpa using hb⟩
      · exact absurd hb (by simp)
  · simp only [hx, exceptionsMatch]
    rw [mem_uniqueFirst, List.mem_append, List.mem_filter, List.mem_filter]
    rw [containsAnyCI_eq_containsAnyOf hne, containsAnyCI_eq_containsAnyOf hexcne]
    constructor
    · rintro (⟨_, hb⟩ | ⟨_, hb⟩)
      · left; simpa using hb
      · right; exact hb
    · rintro (hb | hb)
      · exact Or.inl ⟨hd, by simpa using hb⟩
      · exact Or.inr ⟨hd, hb⟩

/-! ## Claim C1 -/

/-- C1 counterexample: the four description lists produced by the anatomical
subtype chain are NOT always pairwise disjoint.  With a single anatomical
record whose description is rejected by the T1 and T2 rules but accepted by the
T2-star and FLAIR rules, the description ends up in both the T2-star and the
FLAIR lists, because the FLAIR call's exclusion list (line 119) contains the T1
and T2 results but not the T2-star result. -/
theorem C1_counterexample :
    let chain := runAnatChain "anat" [⟨"bad scan", "anat", none⟩] [] []
      ⟨["t1"], some ["bad"], none, none, none, none, none⟩
      ⟨["t2"], some ["bad"], none, none, none, none, none⟩
      ⟨["star"], none, none, none, none, none, none⟩
      ⟨["flair"], none, none, none, none, none, none⟩
    "bad scan" ∈ chain.2.2.1 ∧ "bad scan" ∈ chain.2.2.2 := by
  decide

/-- C1 (amended): when every record lies in the anatomical modality (so the
cross-modality recovery step of `filter_descriptions` recovers nothing), the
chain's exclusion lists make the T2 list disjoint from the T1 list, and the
T2-star and FLAIR lists disjoint from the T1 and T2 lists.  FLAIR's call does
not exclude the T2-star list, so the T2-star and FLAIR lists may intersect,
and without the single-modality assumption the recovery step can reintroduce
excluded descriptions into a later list. -/
theorem C1_anat_chain_exclusion (m : String) (df : List ImagingRecord)
    (excludeInAnat excludeInAnatT1 : List String)
    (r1 r2 r3 r4 : FilterRule) (t1 t2 t2star flair : List String)
    (hmod : ∀ r ∈ df, r.modality = m)
    (heq : runAnatChain m df excludeInAnat excludeInAnatT1 r1 r2 r3 r4 =
      (t1, t2, t2star, flair)) :
    (∀ d ∈ t2, d ∉ t1) ∧ (∀ d ∈ t2star, d ∉ t1 ∧ d ∉ t2) ∧
      (∀ d ∈ flair, d ∉ t1 ∧ d ∉ t2) := by
  simp only [runAnatChain, Prod.mk.injEq] at heq
  obtain ⟨h1, h2, h3, h4⟩ := heq
  subst h1
  subst h2
  subst h3
  subst h4
  refine ⟨?_, ?_, ?_⟩
  · intro d hd
    have := filter_descriptions_avoids_excludeIn hmod rfl hd
    intro hmem
    exact this (List.mem_append.mpr (Or.inr hmem))
  · intro d hd
    have := filter_descriptions_avoids_excludeIn hmod rfl hd
    constructor
    · intro hmem
      exact this (List.mem_append.mpr (Or.inl (List.mem_append.mpr (Or.inr hmem))))
    · intro hmem
      exact this (List.mem_append.mpr (Or.inr hmem))
  · intro d hd
    have := filter_descriptions_avoids_excludeIn hmod rfl hd
    constructor
    · intro hmem
      exact this (List.mem_append.mpr (Or.inl (List.mem_append.mpr (Or.inr hmem))))
    · intro hmem
      exact this (List.mem_append.mpr (Or.inr hmem))

/-- Witness for `C1_anat_chain_exclusion` at the concrete record set of the
counterexample (all records anatomical). -/
theorem C1_anat_chain_exclusion_witness :
    (∀ d ∈ ([] : List String), d ∉ ([] : List String)) ∧
      (∀ d ∈ ["bad scan"], d ∉ ([] : List String) ∧ d ∉ ([] : List String)) ∧
      (∀ d ∈ ["bad scan"], d ∉ ([] : List String) ∧ d ∉ ([] : List String)) :=
  C1_anat_chain_exclusion "anat" [⟨"bad scan", "anat", none⟩] [] []
    ⟨["t1"], some ["bad"], none, none, none, none, none⟩
    ⟨["t2"], some ["bad"], none, none, none, none, none⟩
    ⟨["star"], none, none, none, none, none, none⟩
    ⟨["flair"], none, none, none, none, none, none⟩
    [] [] ["bad scan"] ["bad scan"] (by decide) (by decide)

/-! ## Claim C6 -/

/-- C6 counterexample: with a rule whose exception list is present but empty,
a description containing a reject substring and matching no exception substring
still survives the rejection step — the code joins the exception list into the
empty regex pattern, which matches every string, so the claimed
"survives iff (no reject substring) or (some exception substring)" fails. -/
theorem C6_counterexample :
    let rule : FilterRule := ⟨["t1"], some ["bad"], some [], none, none, none, none⟩
    let descs := descriptionsAfterExcludeIn rule
      (baseDescriptions "anat" (applyProtocolFilters rule [⟨"bad scan", "anat", none⟩]))
    "bad scan" ∈ descs ∧
      "bad scan" ∈ descriptionsAfterReject rule descs ∧
      containsAnyOf ["bad"] "bad scan" = true ∧
      exceptionsMatch rule "bad scan" = false := by
  decide

/-- C6 (amended): for a rule with a non-empty reject-substring list whose
exception list is either absent or non-empty, a description of the
within-modality set survives the rejection step iff it contains none of the
reject substrings (case-insensitively) or it contains at least one exception
substring (case-insensitively).  (A present-but-empty exception list instead
disables rejection entirely, because the code matches against the empty joined
pattern.) -/
theorem C6_reject_survival_iff (m : String) (df : List ImagingRecord) (rule : FilterRule)
    (rej : List String) (d : String)
    (hrej : rule.reject_substrings = some rej) (hne : rej ≠ [])
    (hexc : rule.reject_substrings_exceptions = none ∨
      ∃ exc, rule.reject_substrings_exceptions = some exc ∧ exc ≠ [])
    (hd : d ∈ descriptionsAfterExcludeIn rule
      (baseDescriptions m (applyProtocolFilters rule df))) :
    (d ∈ descriptionsAfterReject rule (descriptionsAfterExcludeIn rule
        (baseDescriptions m (applyProtocolFilters rule df))) ↔
      (containsAnyOf rej d = false ∨ exceptionsMatch rule d = true)) :=
  mem_afterReject_iff hrej hne hexc hd

/-- Witness for `C6_reject_survival_iff`: the description "T1 REPEAT2"
contains the reject substring "t2" but also the exception substring "repeat",
so it survives. -/
theorem C6_reject_survival_iff_witness :
    ("T1 REPEAT2" ∈ descriptionsAfterReject
        ⟨["t1"], some ["t2"], some ["repeat"], none, none, none, none⟩
        (descriptionsAfterExcludeIn
          ⟨["t1"], some ["t2"], some ["repeat"], none, none, none, none⟩
          (baseDescriptions "anat" (applyProtocolFilters
            ⟨["t1"], some ["t2"], some ["repeat"], none, none, none, none⟩
            [⟨"T1 REPEAT2", "anat", none⟩]))) ↔
      (containsAnyOf ["t2"] "T1 REPEAT2" = false ∨
        exceptionsMatch ⟨["t1"], some ["t2"], some ["repeat"], none, none, none, none⟩
          "T1 REPEAT2" = true)) :=
  C6_reject_survival_iff "anat" [⟨"T1 REPEAT2", "anat", none⟩]
    ⟨["t1"], some ["t2"], some ["repeat"], none, none, none, none⟩
    ["t2"] "T1 REPEAT2" rfl (by decide)
    (Or.inr ⟨["repeat"], rfl, by decide⟩) (by decide)

/-! ## Claim C7 -/

/-- C7: for every record set, modality and rule, the description list returned
by `filter_descriptions` is sorted in ascending (code-point) order and contains
no duplicates. -/
theorem C7_classify_sorted_nodup (m : String) (df : List ImagingRecord) (rule : FilterRule) :
    (filter_descriptions m df rule).Sorted strLeProp ∧
      (filter_descriptions m df rule).Nodup := by
  constructor
  · simp only [filter_descriptions]
    exact sortStrings_sorted _
  · simp only [filter_descriptions]
    exact sortStrings_nodup (nodup_uniqueFirst _)

/-! ## Claim C9 -/

/-- C9: the ignored-descriptions artifact is sorted, duplicate-free, and
contains exactly the description strings present in the source data that were
classified under no datatype or subtype. -/
theorem C9_ignored_is_set_difference (df : List ImagingRecord)
    (dmap : List (String × DescNode)) :
    (ignoredDescriptions df (get_all_descriptions dmap)).Sorted strLeProp ∧
      (ignoredDescriptions df (get_all_descriptions dmap)).Nodup ∧
      ∀ d : String,
        (d ∈ ignoredDescriptions df (get_all_descriptions dmap) ↔
          ((∃ r ∈ df, r.description = d) ∧ d ∉ get_all_descriptions dmap)) := by
  unfold ignoredDescriptions
  refine ⟨sortStrings_sorted _, sortStrings_nodup (nodup_uniqueFirst _), ?_⟩
  intro d
  rw [mem_sortStrings, mem_uniqueFirst, List.mem_map]
  constructor
  · rintro ⟨r, hr, rfl⟩
    have hmem := (List.mem_filter.mp hr).1
    have hnc := (List.mem_filter.mp hr).2
    refine ⟨⟨r, hmem, rfl⟩, ?_⟩
    intro hin
    rw [Bool.not_eq_eq_eq_not, Bool.not_true] at hnc
    exact (Bool.not_eq_true _).mpr hnc ((contains_iff_mem _ _).mpr hin)
  · rintro ⟨⟨r, hr, rfl⟩, hnot⟩
    refine ⟨r, List.mem_filter.mpr ⟨hr, ?_⟩, rfl⟩
    simp only [Bool.not_eq_eq_eq_not, Bool.not_true]
    exact (Bool.not_eq_true _).mp (fun hc => hnot ((contains_iff_mem _ _).mp hc))

/-! ## Reversal lemmas (claims C2 and C5) -/

theorem lookup_dictInsert (m : List (String × String)) (k v x : String) :
    lookupAssoc (dictInsert m k v) x = if x = k then some v else lookupAssoc m x := by
  induction m with
  | nil =>
    by_cases h : x = k
    · simp [dictInsert, lookupAssoc, List.lookup, h]
    · simp [dictInsert, lookupAssoc, List.lookup, h, beq_false_of_ne h]
  | cons p rest ih =>
    by_cases hpk : p.1 = k
    · rw [show dictInsert (p :: rest) k v = (k, v) :: rest by
        simp [dictInsert, beq_iff_eq, hpk]]
      by_cases hxk : x = k
      · simp [lookupAssoc, List.lookup, hxk]
      · simp [lookupAssoc, List.lookup, beq_false_of_ne hxk, hpk, hxk]
    · rw [show dictInsert (p :: rest) k v = p :: dictInsert rest k v by
        simp [dictInsert, beq_false_of_ne hpk]]
      by_cases hxp : x = p.1
      · have hxk2 : ¬ x = k := fun h => hpk (by rw [← hxp, h])
        simp [lookupAssoc, List.lookup, hxp, hxk2, hpk]
      · simp only [lookupAssoc, List.lookup, beq_false_of_ne hxp]
        exact ih

theorem processedPairs_nil : processedPairs [] = [] := rfl

theorem processedPairs_cons (e : String × DescNode) (rest : List (String × DescNode)) :
    processedPairs (e :: rest) =
      (if DATATYPES.contains e.1 then (iterDescriptions e.2).map (fun d => (d, e.1)) else [])
        ++ processedPairs rest := by
  by_cases h : e.1 ∈ DATATYPES
  · simp [processedPairs, List.filter_cons, h]
  · simp [processedPairs, List.filter_cons, h]

theorem processedPairs_append (l1 l2 : List (String × DescNode)) :
    processedPairs (l1 ++ l2) = processedPairs l1 ++ processedPairs l2 := by
  simp [processedPairs, List.filter_append]

theorem reverseDescriptionsMap_aux (dmap : List (String × DescNode)) :
    ∀ acc : List (String × String) × List String,
      dmap.foldl (fun acc entry =>
        if DATATYPES.contains entry.1 then
          (iterDescriptions entry.2).foldl (fun a d => revStep a d entry.1) acc
        else acc) acc =
      (processedPairs dmap).foldl (fun a p => revStep a p.1 p.2) acc := by
  induction dmap with
  | nil => intro acc; rfl
  | cons e rest ih =>
    intro acc
    rw [List.foldl_cons, processedPairs_cons, List.foldl_append, ih]
    by_cases h : DATATYPES.contains e.1
    · rw [if_pos h, if_pos h, List.foldl_map]
    · rw [if_neg h, if_neg h, List.foldl_nil]

theorem reverseDescriptionsMap_eq_foldl (dmap : List (String × DescNode)) :
    reverseDescriptionsMap dmap =
      (processedPairs dmap).foldl (fun a p => revStep a p.1 p.2) ([], []) :=
  reverseDescriptionsMap_aux dmap ([], [])

theorem lastAssign_cons (p : String × String) (ps : List (String × String)) (k : String) :
    lastAssign (p :: ps) k =
      match lastAssign ps k with
      | some dt => some dt
      | none => if p.1 == k then some p.2 else none := by
  unfold lastAssign
  rw [List.reverse_cons, List.find?_append]
  cases h : ps.reverse.find? (fun q => q.1 == k) with
  | none =>
    simp only [h, Option.none_or]
    by_cases hpk : p.1 == k
    · simp [List.find?, hpk]
    · simp [List.find?, hpk]
  | some q => simp [h]

theorem revStep_fst (acc : List (String × String) × List String) (d dt : String) :
    (revStep acc d dt).1 = dictInsert acc.1 d dt := rfl

theorem lookup_revFold (pairs : List (String × String)) :
    ∀ (m : List (String × String)) (w : List String) (x : String),
      lookupAssoc ((pairs.foldl (fun a p => revStep a p.1 p.2) (m, w)).1) x =
        match lastAssign pairs x with
        | some dt => some dt
        | none => lookupAssoc m x := by
  induction pairs with
  | nil => intro m w x; rfl
  | cons p ps ih =>
    intro m w x
    rw [List.foldl_cons]
    have hsplit : revStep (m, w) p.1 p.2 =
        (dictInsert m p.1 p.2, (revStep (m, w) p.1 p.2).2) := rfl
    rw [hsplit, ih, lastAssign_cons, lookup_dictInsert]
    cases h : lastAssign ps x with
    | some dt => rfl
    | none =>
      by_cases hx : x = p.1
      · simp [hx]
      · have : (p.1 == x) = false := beq_false_of_ne (Ne.symm hx)
        simp [hx, this]

theorem lastAssign_isSome_of_mem {pairs : List (String × String)} {x dt : String}
    (h : (x, dt) ∈ pairs) : (lastAssign pairs x).isSome = true := by
  unfold lastAssign
  have hs : (pairs.reverse.find? (fun p => p.1 == x)).isSome = true :=
    List.find?_isSome.mpr ⟨(x, dt), List.mem_reverse.mpr h, by simp⟩
  cases hfind : pairs.reverse.find? (fun p => p.1 == x) with
  | none => rw [hfind] at hs; simp at hs
  | some q => rfl

theorem warns_length_mono (pairs : List (String × String)) :
    ∀ (m : List (String × String)) (w : List String),
      w.length ≤ ((pairs.foldl (fun a p => revStep a p.1 p.2) (m, w)).2).length := by
  induction pairs with
  | nil => intro m w; exact Nat.le_refl _
  | cons p ps ih =>
    intro m w
    rw [List.foldl_cons]
    have hsplit : revStep (m, w) p.1 p.2 =
        (dictInsert m p.1 p.2, (revStep (m, w) p.1 p.2).2) := rfl
    rw [hsplit]
    refine Nat.le_trans ?_ (ih (dictInsert m p.1 p.2) ((revStep (m, w) p.1 p.2).2))
    unfold revStep
    by_cases h : m.any (fun q => q.1 == p.1)
    · simp [h]
    · simp [h]

theorem dictInsert_any_self (m : List (String × String)) (k v : String) :
    (dictInsert m k v).any (fun p => p.1 == k) = true := by
  induction m with
  | nil => simp [dictInsert]
  | cons p rest ih =>
    unfold dictInsert
    by_cases h : p.1 == k
    · rw [if_pos h]
      simp
    · rw [if_neg h]
      simp [ih]

theorem dictInsert_any_mono {m : List (String × String)} {x : String} (k v : String)
    (h : m.any (fun p => p.1 == x) = true) :
    (dictInsert m k v).any (fun p => p.1 == x) = true := by
  by_cases hkx : k = x
  · subst hkx
    exact dictInsert_any_self m k v
  · induction m with
    | nil => simp at h
    | cons p rest ih =>
      unfold dictInsert
      have h2 : (p.1 == x) = true ∨ rest.any (fun p => p.1 == x) = true := by
        simpa [List.any_cons, Bool.or_eq_true] using h
      rcases h2 with hpx | hrest
      · by_cases hpk : p.1 == k
        · exfalso
          have h1 : p.1 = k := by simpa using hpk
          have h2 : p.1 = x := by simpa using hpx
          exact hkx (by rw [← h1, h2])
        · rw [if_neg hpk]
          simp [hpx]
      · by_cases hpk : p.1 == k
        · rw [if_pos hpk]
          simp [hrest]
        · rw [if_neg hpk]
          simp [ih hrest]

theorem warn_of_present (ps : List (String × String)) :
    ∀ (m : List (String × String)) (w : List String) (x : String),
      m.any (fun p => p.1 == x) = true → (∃ p ∈ ps, p.1 = x) →
      ((ps.foldl (fun a p => revStep a p.1 p.2) (m, w)).2) ≠ [] := by
  induction ps with
  | nil => rintro m w x _ ⟨p, hp, _⟩; exact absurd hp (List.not_mem_nil p)
  | cons q qs ih =>
    rintro m w x hm ⟨p, hp, hpx⟩
    rw [List.foldl_cons]
    have hsplit : revStep (m, w) q.1 q.2 =
        (dictInsert m q.1 q.2, (revStep (m, w) q.1 q.2).2) := rfl
    rw [hsplit]
    by_cases hqx : q.1 = x
    · have hwarn : (revStep (m, w) q.1 q.2).2 ≠ [] := by
        unfold revStep
        have : m.any (fun p => p.1 == q.1) = true := by rw [hqx]; exact hm
        simp [this]
      have hlen := warns_length_mono qs (dictInsert m q.1 q.2) ((revStep (m, w) q.1 q.2).2)
      intro hnil
      rw [hnil] at hlen
      exact hwarn (List.length_eq_zero.mp (Nat.le_zero.mp hlen))
    · rcases List.mem_cons.mp hp with rfl | hp2
      · exact absurd hpx hqx
      · exact ih (dictInsert m q.1 q.2) _ x (dictInsert_any_mono q.1 q.2 hm) ⟨p, hp2, hpx⟩

theorem warn_of_duplicate (ps : List (String × String)) :
    ∀ (m : List (String × String)) (w : List String) (x : String),
      2 ≤ ps.countP (fun p => p.1 == x) →
      ((ps.foldl (fun a p => revStep a p.1 p.2) (m, w)).2) ≠ [] := by
  induction ps with
  | nil => intro m w x h; simp [List.countP_nil] at h
  | cons q qs ih =>
    intro m w x h
    rw [List.foldl_cons]
    have hsplit : revStep (m, w) q.1 q.2 =
        (dictInsert m q.1 q.2, (revStep (m, w) q.1 q.2).2) := rfl
    rw [hsplit]
    rw [List.countP_cons] at h
    by_cases hqx : (q.1 == x) = true
    · rw [hqx, if_pos rfl] at h
      have h1 : 1 ≤ qs.countP (fun p => p.1 == x) := by omega
      have hex : ∃ p ∈ qs, p.1 = x := by
        rcases List.countP_pos_iff.mp (Nat.lt_of_lt_of_le Nat.zero_lt_one h1) with ⟨p, hp, hpx⟩
        exact ⟨p, hp, by simpa using hpx⟩
      have hany : (dictInsert m q.1 q.2).any (fun p => p.1 == x) = true := by
        have hq : q.1 = x := by simpa using hqx
        rw [← hq]
        exact dictInsert_any_self m q.1 q.2
      exact warn_of_present qs (dictInsert m q.1 q.2) _ x hany hex
    · have hqx2 : (q.1 == x) = false := (Bool.not_eq_true _).mp hqx
      rw [hqx2, if_neg Bool.false_ne_true] at h
      have h2 : 2 ≤ qs.countP (fun p => p.1 == x) := by omega
      exact ih (dictInsert m q.1 q.2) _ x h2

theorem lookup_reverseDescriptionsMap (dmap : List (String × DescNode)) (d : String) :
    lookupAssoc (reverseDescriptionsMap dmap).1 d = lastAssign (processedPairs dmap) d := by
  rw [reverseDescriptionsMap_eq_foldl, lookup_revFold]
  cases h : lastAssign (processedPairs dmap) d with
  | some dt => rfl
  | none => rfl

/-! ## Claim C2 -/

/-- C2 evaluated at a failing input: a classification mapping that lists the
description "MPRAGE" under the T1 subtype of the nested anatomical datatype.
The reversal loop iterates `for description in descriptions` with
`descriptions` being the nested dict, so it binds the SUBTYPE KEYS, not the
descriptions: the lookup maps "T1" to "anat" and leaves "MPRAGE" unmapped,
contradicting the claim (and the code's own downstream expectation that the
anatomical datatype is seen). -/
theorem C2_nested_anat_descriptions_unmapped :
    lookupAssoc (reverseDescriptionsMap
        [("anat", DescNode.nested [("T1", ["MPRAGE"])]),
         ("dwi", DescNode.flat []), ("func", DescNode.flat [])]).1 "MPRAGE" = none ∧
      lookupAssoc (reverseDescriptionsMap
        [("anat", DescNode.nested [("T1", ["MPRAGE"])]),
         ("dwi", DescNode.flat []), ("func", DescNode.flat [])]).1 "T1" = some "anat" := by
  decide

/-! ## Claim C5 -/

/-- C5: when a description is listed under two different recognized datatype
keys, the reversal does not fail: the final lookup equals the assignment of the
last processed occurrence (`lastAssign` reads the assignments in execution
order and keeps the last), that assignment exists, and at least one duplicate
warning was recorded. -/
theorem C5_duplicate_description_last_write (pre mid post : List (String × DescNode))
    (dt1 dt2 : String) (n1 n2 : DescNode) (d : String)
    (h1 : dt1 ∈ DATATYPES) (h2 : dt2 ∈ DATATYPES) (hne : dt1 ≠ dt2)
    (hd1 : d ∈ iterDescriptions n1) (hd2 : d ∈ iterDescriptions n2) :
    lookupAssoc (reverseDescriptionsMap
        (pre ++ ((dt1, n1) :: mid) ++ ((dt2, n2) :: post))).1 d =
      lastAssign (processedPairs (pre ++ ((dt1, n1) :: mid) ++ ((dt2, n2) :: post))) d ∧
    (lastAssign (processedPairs (pre ++ ((dt1, n1) :: mid) ++ ((dt2, n2) :: post))) d).isSome
        = true ∧
    (reverseDescriptionsMap (pre ++ ((dt1, n1) :: mid) ++ ((dt2, n2) :: post))).2 ≠ [] := by
  have hpp : processedPairs (pre ++ ((dt1, n1) :: mid) ++ ((dt2, n2) :: post)) =
      (processedPairs pre ++
        ((iterDescriptions n1).map (fun x => (x, dt1)) ++ processedPairs mid)) ++
        ((iterDescriptions n2).map (fun x => (x, dt2)) ++ processedPairs post) := by
    rw [processedPairs_append, processedPairs_append, processedPairs_cons,
      processedPairs_cons]
    rw [if_pos ((contains_iff_mem _ _).mpr h1), if_pos ((contains_iff_mem _ _).mpr h2)]
  have hc1 : 0 < ((iterDescriptions n1).map (fun x => (x, dt1))).countP
      (fun p => p.1 == d) := by
    rw [List.countP_map]
    exact List.countP_pos_iff.mpr ⟨d, hd1, by simp [Function.comp]⟩
  have hc2 : 0 < ((iterDescriptions n2).map (fun x => (x, dt2))).countP
      (fun p => p.1 == d) := by
    rw [List.countP_map]
    exact List.countP_pos_iff.mpr ⟨d, hd2, by simp [Function.comp]⟩
  have hcnt : 2 ≤ (processedPairs
      (pre ++ ((dt1, n1) :: mid) ++ ((dt2, n2) :: post))).countP (fun p => p.1 == d) := by
    rw [hpp, List.countP_append, List.countP_append, List.countP_append,
      List.countP_append]
    omega
  refine ⟨lookup_reverseDescriptionsMap _ d, ?_, ?_⟩
  · have hmem : (d, dt2) ∈ processedPairs (pre ++ ((dt1, n1) :: mid) ++ ((dt2, n2) :: post)) := by
      rw [hpp]
      exact List.mem_append.mpr (Or.inr (List.mem_append.mpr
        (Or.inl (List.mem_map.mpr ⟨d, hd2, rfl⟩))))
    exact lastAssign_isSome_of_mem hmem
  · rw [reverseDescriptionsMap_eq_foldl]
    exact warn_of_duplicate _ [] [] d hcnt

/-- Witness for `C5_duplicate_description_last_write`: the description "d1" is
listed under both "dwi" and "func"; the reversal warns and the lookup returns
"func", the last datatype processed. -/
theorem C5_duplicate_description_last_write_witness :
    (lookupAssoc (reverseDescriptionsMap
        [("dwi", DescNode.flat ["d1"]), ("func", DescNode.flat ["d1"])]).1 "d1" =
      lastAssign (processedPairs
        [("dwi", DescNode.flat ["d1"]), ("func", DescNode.flat ["d1"])]) "d1" ∧
    (lastAssign (processedPairs
        [("dwi", DescNode.flat ["d1"]), ("func", DescNode.flat ["d1"])]) "d1").isSome
        = true ∧
    (reverseDescriptionsMap
        [("dwi", DescNode.flat ["d1"]), ("func", DescNode.flat ["d1"])]).2 ≠ []) ∧
    lookupAssoc (reverseDescriptionsMap
        [("dwi", DescNode.flat ["d1"]), ("func", DescNode.flat ["d1"])]).1 "d1" =
      some "func" :=
  ⟨C5_duplicate_description_last_write [] [] [] "dwi" "func"
    (DescNode.flat ["d1"]) (DescNode.flat ["d1"]) "d1"
    (by decide) (by decide) (by decide) (by decide) (by decide), by decide⟩

/-! ## Claim C8 -/

/-- C8: error policy of the imaging-record normalization (lines 155-177).
An unmapped visit label is fatal; with all visits mapped, an unmapped group
label is fatal; with all visits and groups mapped the run continues
(`Except.ok`), and a visit code with no session mapping leaves the row's
session unmapped and produces a warning.  `run` invokes this with the constant
`VISIT_IMAGING_MAP`, `VISIT_SESSION_MAP` and `GROUP_IMAGING_MAP`. -/
theorem C8_normalization_error_policy (visitMap sessionMap groupMap : List (String × String))
    (rows : List ImagingEntry) :
    ((∃ r ∈ rows, List.lookup r.visit visitMap = none) →
      (normalizeImaging visitMap sessionMap groupMap rows).isOk = false) ∧
    ((∀ r ∈ rows, (List.lookup r.visit visitMap).isSome = true) →
      (∃ r ∈ rows, List.lookup r.group groupMap = none) →
      (normalizeImaging visitMap sessionMap groupMap rows).isOk = false) ∧
    ((∀ r ∈ rows, (List.lookup r.visit visitMap).isSome = true) →
      (∀ r ∈ rows, (List.lookup r.group groupMap).isSome = true) →
      ∃ out warns,
        normalizeImaging visitMap sessionMap groupMap rows = Except.ok (out, warns) ∧
        ∀ r ∈ out, List.lookup r.visit sessionMap = none →
          r.session = none ∧ warns ≠ []) := by
  refine ⟨?_, ?_, ?_⟩
  · rintro ⟨r, hr, hnone⟩
    have hsome : (rows.find? (fun r => (List.lookup r.visit visitMap).isNone)).isSome = true :=
      List.find?_isSome.mpr ⟨r, hr, by simp [hnone]⟩
    cases hf : rows.find? (fun r => (List.lookup r.visit visitMap).isNone) with
    | none => rw [hf] at hsome; simp at hsome
    | some r' =>
      have : normalizeImaging visitMap sessionMap groupMap rows =
          Except.error ("Found visit without mapping in VISIT_IMAGING_MAP: " ++ r'.visit) := by
        simp [normalizeImaging, hf]
      rw [this]
      rfl
  · rintro hv ⟨r, hr, hnone⟩
    have hfv : rows.find? (fun r => (List.lookup r.visit visitMap).isNone) = none := by
      rw [List.find?_eq_none]
      intro x hx
      rcases Option.isSome_iff_exists.mp (hv x hx) with ⟨v, hvx⟩
      simp [hvx]
    have hsome : (rows.find? (fun r => (List.lookup r.group groupMap).isNone)).isSome
        = true :=
      List.find?_isSome.mpr ⟨r, hr, by simp [hnone]⟩
    cases hf : rows.find? (fun r => (List.lookup r.group groupMap).isNone) with
    | none => rw [hf] at hsome; simp at hsome
    | some r' =>
      have : normalizeImaging visitMap sessionMap groupMap rows =
          Except.error ("Found group without mapping in GROUP_IMAGING_MAP: " ++ r'.group) := by
        simp [normalizeImaging, hfv, hf]
      rw [this]
      rfl
  · intro hv hg
    have hfv : rows.find? (fun r => (List.lookup r.visit visitMap).isNone) = none := by
      rw [List.find?_eq_none]
      intro x hx
      rcases Option.isSome_iff_exists.mp (hv x hx) with ⟨v, hvx⟩
      simp [hvx]
    have hfg : rows.find? (fun r => (List.lookup r.group groupMap).isNone) = none := by
      rw [List.find?_eq_none]
      intro x hx
      rcases Option.isSome_iff_exists.mp (hg x hx) with ⟨v, hvx⟩
      simp [hvx]
    have hgen : ∀ (X : List String) (msg : String) (y : String), y ∈ X →
        (if X.isEmpty then ([] : List String) else [msg]) ≠ [] := by
      intro X msg y hy
      cases hX : X.isEmpty with
      | false => simp
      | true =>
        exfalso
        rw [List.isEmpty_iff] at hX
        rw [hX] at hy
        exact List.not_mem_nil y hy
    simp only [normalizeImaging, hfv, hfg]
    refine ⟨_, _, rfl, ?_⟩
    intro r hr hrnone
    rcases List.mem_map.mp hr with ⟨r0, hr0, rfl⟩
    refine ⟨hrnone, ?_⟩
    refine hgen _ _ ((List.lookup r0.visit visitMap).getD r0.visit) ?_
    exact List.mem_filter.mpr
      ⟨List.mem_map_of_mem _ (List.mem_map_of_mem _ hr0), by simp [hrnone]⟩

/-- Witness for `C8_normalization_error_policy`: an unmapped visit label is
fatal, an unmapped group label is fatal, and (with an empty session map) a
missing session mapping leaves the session unmapped with a warning while the
run succeeds. -/
theorem C8_normalization_error_policy_witness :
    (normalizeImaging VISIT_IMAGING_MAP VISIT_SESSION_MAP GROUP_IMAGING_MAP
        [⟨"S1", "Weird", "PD", "d"⟩]).isOk = false ∧
    (normalizeImaging VISIT_IMAGING_MAP VISIT_SESSION_MAP GROUP_IMAGING_MAP
        [⟨"S1", "Baseline", "WeirdGroup", "d"⟩]).isOk = false ∧
    ∃ out warns,
      normalizeImaging VISIT_IMAGING_MAP [] GROUP_IMAGING_MAP
          [⟨"S1", "Baseline", "PD", "d"⟩] = Except.ok (out, warns) ∧
      ∀ r ∈ out, List.lookup r.visit ([] : List (String × String)) = none →
        r.session = none ∧ warns ≠ [] :=
  ⟨(C8_normalization_error_policy VISIT_IMAGING_MAP VISIT_SESSION_MAP GROUP_IMAGING_MAP
      [⟨"S1", "Weird", "PD", "d"⟩]).1
      ⟨⟨"S1", "Weird", "PD", "d"⟩, by decide, by decide⟩,
   (C8_normalization_error_policy VISIT_IMAGING_MAP VISIT_SESSION_MAP GROUP_IMAGING_MAP
      [⟨"S1", "Baseline", "WeirdGroup", "d"⟩]).2.1
      (by decide) ⟨⟨"S1", "Baseline", "WeirdGroup", "d"⟩, by decide, by decide⟩,
   (C8_normalization_error_policy VISIT_IMAGING_MAP [] GROUP_IMAGING_MAP
      [⟨"S1", "Baseline", "PD", "d"⟩]).2.2
      (by decide) (by decide)⟩

/-! ## Claim C4 -/

/-- C4: the persistence policy of lines 349-364, with file contents modelled as
the parsed manifest.  When an existing manifest equals the newly built one the
run exits successfully without writing; when they differ and the overwrite flag
is unset the run fails and the file is unchanged; and a second run on the
unchanged inputs after any successful run builds the same manifest, finds it
equal, and performs no write. -/
theorem C4_persist_and_idempotence (tabularFiles : List (List TabularEntry))
    (groupTable : List GroupEntry) (imaging : List ImagingEntry)
    (sessionsConfig : List String) (dmap : List (String × DescNode))
    (built old contents : List ManifestRow) (warns : List String)
    (st : Option (List ManifestRow)) (ow ow2 : Bool) (wrote : Bool) :
    (buildManifest tabularFiles groupTable imaging sessionsConfig dmap =
        Except.ok (built, warns) → built = old →
      runPipeline tabularFiles groupTable imaging sessionsConfig dmap (some old) ow =
        Except.ok (false, old)) ∧
    (buildManifest tabularFiles groupTable imaging sessionsConfig dmap =
        Except.ok (built, warns) → built ≠ old →
      runPipeline tabularFiles groupTable imaging sessionsConfig dmap (some old) false =
        Except.error "File exists: mr_proc_manifest.csv. Use --overwrite to overwrite") ∧
    (runPipeline tabularFiles groupTable imaging sessionsConfig dmap st ow =
        Except.ok (wrote, contents) →
      runPipeline tabularFiles groupTable imaging sessionsConfig dmap (some contents) ow2 =
        Except.ok (false, contents)) := by
  refine ⟨?_, ?_, ?_⟩
  · intro hb heq
    subst heq
    simp [runPipeline, hb, persistManifest]
  · intro hb hne
    simp [runPipeline, hb, persistManifest, hne]
  · intro hrun
    cases hb : buildManifest tabularFiles groupTable imaging sessionsConfig dmap with
    | error e => simp [runPipeline, hb] at hrun
    | ok p =>
      obtain ⟨m, w⟩ := p
      simp only [runPipeline, hb] at hrun ⊢
      have hcm : contents = m := by
        cases st with
        | none =>
          simp [persistManifest] at hrun
          exact hrun.2.symm
        | some o =>
          by_cases heq : m = o
          · simp [persistManifest, heq] at hrun
            rw [← hrun.2, heq]
          · by_cases how : ow
            · simp [persistManifest, heq, how] at hrun
              exact hrun.2.symm
            · simp [persistManifest, heq, how] at hrun
      subst hcm
      simp [persistManifest]

/-- Witness for `C4_persist_and_idempotence` on empty inputs: the empty build
against an equal file is a no-op, against a different file without the
overwrite flag it fails, and a second run after a successful first run writes
nothing. -/
theorem C4_persist_and_idempotence_witness :
    (runPipeline [] [] [] [] [] (some []) true = Except.ok (false, []) ∧
      runPipeline [] [] [] [] [] (some [⟨"S", "V", none, []⟩]) false =
        Except.error "File exists: mr_proc_manifest.csv. Use --overwrite to overwrite") ∧
    runPipeline [] [] [] [] [] (some []) false = Except.ok (false, []) :=
  ⟨⟨(C4_persist_and_idempotence [] [] [] [] [] [] [] [] [] none true true true).1
      rfl rfl,
    (C4_persist_and_idempotence [] [] [] [] [] [] [⟨"S", "V", none, []⟩] [] [] none true true
        true).2.1 rfl (by decide)⟩,
   (C4_persist_and_idempotence [] [] [] [] [] [] [] [] [] none true false true).2.2
      rfl⟩

/-! ## Claim C10 -/

theorem buildManifest_ok_shape {files : List (List TabularEntry)} {groups : List GroupEntry}
    {imaging : List ImagingEntry} {sessions : List String} {dmap : List (String × DescNode)}
    {rows : List ManifestRow} {warns : List String}
    (h : buildManifest files groups imaging sessions dmap = Except.ok (rows, warns)) :
    ∃ img1, normalizeImaging VISIT_IMAGING_MAP VISIT_SESSION_MAP GROUP_IMAGING_MAP imaging =
        Except.ok (img1, warns) ∧
      rows = finalizeManifest (outerMerge (filteredTabular files groups img1)
        (filteredImaging img1 sessions (reverseDescriptionsMap dmap).1)) := by
  unfold buildManifest at h
  cases hc : (sessions.filter
      (fun s => !((VISIT_SESSION_MAP.map (fun e => e.2)).contains s))).isEmpty with
  | false =>
    rw [hc] at h
    simp at h
  | true =>
    rw [hc] at h
    simp only [Bool.not_true] at h
    rw [if_neg Bool.false_ne_true] at h
    cases hn : normalizeImaging VISIT_IMAGING_MAP VISIT_SESSION_MAP GROUP_IMAGING_MAP
        imaging with
    | error e =>
      rw [hn] at h
      simp at h
    | ok p =>
      obtain ⟨img1, ws⟩ := p
      rw [hn] at h
      simp only [Except.ok.injEq, Prod.mk.injEq] at h
      exact ⟨img1, by rw [h.2], h.1.symm⟩

/-- C10: every manifest the builder produces has its rows sorted ascending by
subject id, then by visit label (line 323); list positions model the reset
index of line 330. -/
theorem C10_manifest_rows_sorted (files : List (List TabularEntry))
    (groups : List GroupEntry) (imaging : List ImagingEntry) (sessions : List String)
    (dmap : List (String × DescNode)) (rows : List ManifestRow) (warns : List String)
    (h : buildManifest files groups imaging sessions dmap = Except.ok (rows, warns)) :
    rows.Sorted manifestLeProp := by
  obtain ⟨img1, _, hrows⟩ := buildManifest_ok_shape h
  rw [hrows]
  unfold finalizeManifest
  haveI : IsTotal ManifestRow manifestLeProp := ⟨manifestLe_total⟩
  haveI : IsTrans ManifestRow manifestLeProp := ⟨manifestLe_trans⟩
  exact List.sorted_insertionSort _ _

/-- Witness for `C10_manifest_rows_sorted` at a concrete input with two
subjects. -/
theorem C10_manifest_rows_sorted_witness :
    ([⟨"S1", "BL", none, []⟩, ⟨"S2", "BL", none, []⟩] : List ManifestRow).Sorted
      manifestLeProp :=
  C10_manifest_rows_sorted [[⟨"S2", "BL"⟩, ⟨"S1", "BL"⟩]] [⟨"S1", "Prodromal"⟩,
    ⟨"S2", "Prodromal"⟩] [] ["1"] []
    [⟨"S1", "BL", none, []⟩, ⟨"S2", "BL", none, []⟩] [] (by rfl)

/-! ## Claim C3: counting lemmas for the outer merge -/

theorem countP_congr_local {α : Type} {l : List α} {p q : α → Bool}
    (h : ∀ a ∈ l, p a = q a) : l.countP p = l.countP q := by
  induction l with
  | nil => rfl
  | cons a as ih =>
    rw [List.countP_cons, List.countP_cons, h a (List.mem_cons_self a as),
      ih (fun b hb => h b (List.mem_cons_of_mem a hb))]

theorem beq_symm_str (a b : String) : (a == b) = (b == a) := by
  by_cases h : a = b
  · rw [h]
  · rw [beq_false_of_ne h, beq_false_of_ne (Ne.symm h)]

theorem sum_map_ite {α : Type} (l : List α) (p : α → Bool) (c : Nat) :
    (l.map (fun t => if p t then c else 0)).sum = l.countP p * c := by
  induction l with
  | nil => simp
  | cons a as ih =>
    rw [List.map_cons, List.sum_cons, List.countP_cons, ih]
    by_cases h : p a
    · rw [if_pos h, if_pos h, Nat.add_mul, Nat.one_mul]
      omega
    · rw [if_neg h, if_neg h, Nat.add_zero]
      exact Nat.zero_add _

theorem countP_outerMatched (tab : List TabularWithGroup) (img : List ImagingAgg)
    (s v : String) :
    (((tab.map (fun t =>
      (img.filter (fun i => i.subject == t.subject && i.visit == t.visit)).map (fun i =>
        ({ subject := t.subject, visit := t.visit,
           session := some i.session, datatype := some i.datatype } : MergedRow)))).flatten).countP
      (mergedKeyIs s v)) =
    tab.countP (tabKeyIs s v) * img.countP (imgKeyIs s v) := by
  rw [List.countP_flatten, List.map_map]
  have hpoint : ∀ t ∈ tab,
      (List.countP (mergedKeyIs s v) ∘ fun t =>
        (img.filter (fun i => i.subject == t.subject && i.visit == t.visit)).map (fun i =>
          ({ subject := t.subject, visit := t.visit,
             session := some i.session, datatype := some i.datatype } : MergedRow))) t =
      (fun t => if tabKeyIs s v t then img.countP (imgKeyIs s v) else 0) t := by
    intro t _
    show (((img.filter (fun i => i.subject == t.subject && i.visit == t.visit)).map (fun i =>
        ({ subject := t.subject, visit := t.visit,
           session := some i.session, datatype := some i.datatype } : MergedRow))).countP
          (mergedKeyIs s v)) =
      if tabKeyIs s v t then img.countP (imgKeyIs s v) else 0
    rw [List.countP_map]
    have hconst : ((mergedKeyIs s v) ∘ fun i : ImagingAgg =>
        ({ subject := t.subject, visit := t.visit,
           session := some i.session, datatype := some i.datatype } : MergedRow)) =
        fun _ => tabKeyIs s v t := rfl
    rw [hconst]
    by_cases hk : tabKeyIs s v t = true
    · rw [if_pos hk, hk]
      have hsub : t.subject = s := by
        have := (Bool.and_eq_true _ _).mp hk
        exact eq_of_beq this.1
      have hvis : t.visit = v := by
        have := (Bool.and_eq_true _ _).mp hk
        exact eq_of_beq this.2
      have hfeq : (fun i : ImagingAgg => i.subject == t.subject && i.visit == t.visit) =
          imgKeyIs s v := by
        funext i
        rw [hsub, hvis]
        rfl
      rw [hfeq, List.countP_true, List.countP_eq_length_filter]
    · have hk2 : tabKeyIs s v t = false := (Bool.not_eq_true _).mp hk
      rw [if_neg hk, hk2]
      rw [show (fun _ : ImagingAgg => false) = fun _ : ImagingAgg => false from rfl]
      simp
  rw [List.map_congr_left hpoint, sum_map_ite]

theorem countP_leftOnly (tab : List TabularWithGroup) (img : List ImagingAgg) (s v : String) :
    (((tab.filter (fun t =>
      !(img.any (fun i => i.subject == t.subject && i.visit == t.visit)))).map (fun t =>
        ({ subject := t.subject, visit := t.visit,
           session := none, datatype := none } : MergedRow))).countP (mergedKeyIs s v)) =
    if img.countP (imgKeyIs s v) = 0 then tab.countP (tabKeyIs s v) else 0 := by
  rw [List.countP_map]
  rw [show ((mergedKeyIs s v) ∘ fun t =>
      ({ subject := t.subject, visit := t.visit,
         session := none, datatype := none } : MergedRow)) = tabKeyIs s v from rfl]
  rw [List.countP_filter]
  by_cases himg : img.countP (imgKeyIs s v) = 0
  · rw [if_pos himg]
    apply countP_congr_local
    intro t _
    by_cases hk : tabKeyIs s v t = true
    · have hsub : t.subject = s := eq_of_beq ((Bool.and_eq_true _ _).mp hk).1
      have hvis : t.visit = v := eq_of_beq ((Bool.and_eq_true _ _).mp hk).2
      have hany : img.any (fun i => i.subject == t.subject && i.visit == t.visit) = false := by
        rw [Bool.eq_false_iff]
        intro hyes
        rcases List.any_eq_true.mp hyes with ⟨i, hi, hik⟩
        have : imgKeyIs s v i = true := by
          unfold imgKeyIs
          rw [← hsub, ← hvis]
          exact hik
        exact (List.countP_eq_zero.mp himg i hi) this
      rw [hk, hany]
      rfl
    · have hk2 : tabKeyIs s v t = false := (Bool.not_eq_true _).mp hk
      rw [hk2]
      rfl
  · rw [if_neg himg]
    rw [List.countP_eq_zero]
    intro t _ habs
    rcases (Bool.and_eq_true _ _).mp habs with ⟨hk, hno⟩
    have hsub : t.subject = s := eq_of_beq ((Bool.and_eq_true _ _).mp hk).1
    have hvis : t.visit = v := eq_of_beq ((Bool.and_eq_true _ _).mp hk).2
    rcases Nat.exists_eq_succ_of_ne_zero himg with ⟨n, hn⟩
    have hpos : 0 < img.countP (imgKeyIs s v) := by omega
    rcases List.countP_pos_iff.mp hpos with ⟨i, hi, hik⟩
    have : img.any (fun i => i.subject == t.subject && i.visit == t.visit) = true := by
      refine List.any_eq_true.mpr ⟨i, hi, ?_⟩
      rw [hsub, hvis]
      exact hik
    rw [this] at hno
    simp at hno

theorem countP_rightOnly (tab : List TabularWithGroup) (img : List ImagingAgg) (s v : String) :
    (((img.filter (fun i =>
      !(tab.any (fun t => i.subject == t.subject && i.visit == t.visit)))).map (fun i =>
        ({ subject := i.subject, visit := i.visit,
           session := some i.session, datatype := some i.datatype } : MergedRow))).countP
          (mergedKeyIs s v)) =
    if tab.countP (tabKeyIs s v) = 0 then img.countP (imgKeyIs s v) else 0 := by
  rw [List.countP_map]
  rw [show ((mergedKeyIs s v) ∘ fun i =>
      ({ subject := i.subject, visit := i.visit,
         session := some i.session, datatype := some i.datatype } : MergedRow)) =
      imgKeyIs s v from rfl]
  rw [List.countP_filter]
  by_cases htab : tab.countP (tabKeyIs s v) = 0
  · rw [if_pos htab]
    apply countP_congr_local
    intro i _
    by_cases hk : imgKeyIs s v i = true
    · have hsub : i.subject = s := eq_of_beq ((Bool.and_eq_true _ _).mp hk).1
      have hvis : i.visit = v := eq_of_beq ((Bool.and_eq_true _ _).mp hk).2
      have hany : tab.any (fun t => i.subject == t.subject && i.visit == t.visit) = false := by
        rw [Bool.eq_false_iff]
        intro hyes
        rcases List.any_eq_true.mp hyes with ⟨t, ht, htk⟩
        have : tabKeyIs s v t = true := by
          unfold tabKeyIs
          rcases (Bool.and_eq_true _ _).mp htk with ⟨h1, h2⟩
          rw [beq_symm_str] at h1 h2
          rw [← hsub, ← hvis]
          exact (Bool.and_eq_true _ _).mpr ⟨h1, h2⟩
        exact (List.countP_eq_zero.mp htab t ht) this
      rw [hk, hany]
      rfl
    · have hk2 : imgKeyIs s v i = false := (Bool.not_eq_true _).mp hk
      rw [hk2]
      rfl
  · rw [if_neg htab]
    rw [List.countP_eq_zero]
    intro i _ habs
    rcases (Bool.and_eq_true _ _).mp habs with ⟨hk, hno⟩
    have hsub : i.subject = s := eq_of_beq ((Bool.and_eq_true _ _).mp hk).1
    have hvis : i.visit = v := eq_of_beq ((Bool.and_eq_true _ _).mp hk).2
    have hpos : 0 < tab.countP (tabKeyIs s v) := Nat.pos_of_ne_zero htab
    rcases List.countP_pos_iff.mp hpos with ⟨t, ht, htk⟩
    have : tab.any (fun t => i.subject == t.subject && i.visit == t.visit) = true := by
      refine List.any_eq_true.mpr ⟨t, ht, ?_⟩
      rcases (Bool.and_eq_true _ _).mp htk with ⟨h1, h2⟩
      rw [beq_symm_str] at h1 h2
      rw [hsub, hvis]
      exact (Bool.and_eq_true _ _).mpr ⟨h1, h2⟩
    rw [this] at hno
    simp at hno

theorem outerMerge_countP (tab : List TabularWithGroup) (img : List ImagingAgg)
    (s v : String) :
    (outerMerge tab img).countP (mergedKeyIs s v) =
      tab.countP (tabKeyIs s v) * img.countP (imgKeyIs s v)
      + (if img.countP (imgKeyIs s v) = 0 then tab.countP (tabKeyIs s v) else 0)
      + (if tab.countP (tabKeyIs s v) = 0 then img.countP (imgKeyIs s v) else 0) := by
  unfold outerMerge
  rw [List.countP_append, List.countP_append, countP_outerMatched, countP_leftOnly,
    countP_rightOnly]

theorem finalizeManifest_countP (rows : List MergedRow) (s v : String) :
    (finalizeManifest rows).countP (manifestKeyIs s v) =
      rows.countP (mergedKeyIs s v) := by
  unfold finalizeManifest
  rw [(List.perm_insertionSort manifestLeProp _).countP_eq, List.countP_map]
  rfl

/-! ## Claim C3: uniqueness of keys on both sides of the merge -/

theorem ddsv_aux (rows : List TabularEntry) :
    ∀ acc : List TabularEntry, (∀ s v, acc.countP (tabEntryKeyIs s v) ≤ 1) →
      ∀ s v, ((rows.foldl (fun acc r =>
        if acc.any (fun r2 => r2.subject == r.subject && r2.visit == r.visit) then acc
        else acc ++ [r]) acc).countP (tabEntryKeyIs s v)) ≤ 1 := by
  induction rows with
  | nil => intro acc h s v; exact h s v
  | cons r rs ih =>
    intro acc h s v
    rw [List.foldl_cons]
    apply ih
    intro s' v'
    by_cases hany : acc.any (fun r2 => r2.subject == r.subject && r2.visit == r.visit) = true
    · rw [if_pos hany]; exact h s' v'
    · rw [if_neg hany, List.countP_append]
      by_cases hk : tabEntryKeyIs s' v' r = true
      · have hsub : r.subject = s' := eq_of_beq ((Bool.and_eq_true _ _).mp hk).1
        have hvis : r.visit = v' := eq_of_beq ((Bool.and_eq_true _ _).mp hk).2
        have hzero : acc.countP (tabEntryKeyIs s' v') = 0 := by
          rw [List.countP_eq_zero]
          intro r2 hr2 hr2k
          apply hany
          refine List.any_eq_true.mpr ⟨r2, hr2, ?_⟩
          have h2s : r2.subject = s' := eq_of_beq ((Bool.and_eq_true _ _).mp hr2k).1
          have h2v : r2.visit = v' := eq_of_beq ((Bool.and_eq_true _ _).mp hr2k).2
          rw [h2s, h2v, hsub, hvis]
          simp
        rw [hzero]
        have : ([r].countP (tabEntryKeyIs s' v')) = 1 := by
          rw [List.countP_cons, List.countP_nil, hk, if_pos rfl]
        omega
      · have : ([r].countP (tabEntryKeyIs s' v')) = 0 := by
          rw [List.countP_cons, List.countP_nil]
          have hk2 : tabEntryKeyIs s' v' r = false := (Bool.not_eq_true _).mp hk
          rw [hk2, if_neg Bool.false_ne_true]
        rw [this]
        have := h s' v'
        omega

theorem dropDuplicateSubjectVisit_countP_le_one (rows : List TabularEntry) (s v : String) :
    (dropDuplicateSubjectVisit rows).countP (tabEntryKeyIs s v) ≤ 1 :=
  ddsv_aux rows [] (fun _ _ => by simp) s v

theorem groups_filter_length_le_one {groups : List GroupEntry}
    (hg : (groups.map (fun g => g.subject)).Nodup) (x : String) :
    (groups.filter (fun g => g.subject == x)).length ≤ 1 := by
  rw [← List.countP_eq_length_filter]
  have hmap : groups.countP (fun g => g.subject == x) =
      (groups.map (fun g => g.subject)).countP (fun y => y == x) := by
    rw [List.countP_map]
    rfl
  rw [hmap, ← List.count_eq_countP]
  exact List.nodup_iff_count_le_one.mp hg x

theorem mergeGroup_countP {groups : List GroupEntry} (tab : List TabularEntry) (s v : String)
    (hg : (groups.map (fun g => g.subject)).Nodup) :
    (mergeGroup tab groups).countP (tabKeyIs s v) = tab.countP (tabEntryKeyIs s v) := by
  unfold mergeGroup
  rw [List.countP_flatten, List.map_map]
  have hpoint : ∀ t ∈ tab,
      (List.countP (tabKeyIs s v) ∘ fun r =>
        match groups.filter (fun g => g.subject == r.subject) with
        | [] => [{ subject := r.subject, visit := r.visit, group := none }]
        | ms => ms.map (fun g =>
            { subject := r.subject, visit := r.visit, group := some g.group })) t =
      (fun t => if tabEntryKeyIs s v t then 1 else 0) t := by
    intro t _
    show (List.countP (tabKeyIs s v)
        (match groups.filter (fun g => g.subject == t.subject) with
        | [] => [{ subject := t.subject, visit := t.visit, group := none }]
        | ms => ms.map (fun g =>
            { subject := t.subject, visit := t.visit, group := some g.group }))) =
      if tabEntryKeyIs s v t then 1 else 0
    have hlen := groups_filter_length_le_one hg t.subject
    cases hflt : groups.filter (fun g => g.subject == t.subject) with
    | nil =>
      rw [List.countP_cons, List.countP_nil]
      have heq1 : tabKeyIs s v { subject := t.subject, visit := t.visit, group := none } =
          tabEntryKeyIs s v t := rfl
      rw [heq1]
      omega
    | cons g gs =>
      rw [hflt] at hlen
      have hg0 : gs = [] := by
        rw [List.length_cons] at hlen
        exact List.length_eq_zero.mp (by omega)
      subst hg0
      show (List.countP (tabKeyIs s v) ([g].map (fun g =>
          { subject := t.subject, visit := t.visit, group := some g.group }))) =
        if tabEntryKeyIs s v t = true then 1 else 0
      rw [List.map_cons, List.map_nil, List.countP_cons, List.countP_nil]
      have heq2 : tabKeyIs s v
          { subject := t.subject, visit := t.visit, group := some g.group } =
          tabEntryKeyIs s v t := rfl
      rw [heq2]
      omega
  rw [List.map_congr_left hpoint]
  have := sum_map_ite tab (tabEntryKeyIs s v) 1
  rw [Nat.mul_one] at this
  exact this

theorem fill_key_eq (imaging : List ImagingNormalized) (s v : String)
    (r : TabularWithGroup) :
    tabKeyIs s v (fillGroupFromImaging imaging r) = tabKeyIs s v r := by
  unfold fillGroupFromImaging
  cases hg : r.group with
  | some g => rfl
  | none =>
    cases h1 : uniqueFirst ((imaging.filter (fun q => q.subject == r.subject)).map
        (fun q => q.group)) with
    | nil => rfl
    | cons g gs =>
      cases gs with
      | nil => rfl
      | cons g2 gs2 => rfl

theorem filteredTabular_countP_le_one (files : List (List TabularEntry))
    {groups : List GroupEntry} (img1 : List ImagingNormalized) (s v : String)
    (hg : (groups.map (fun g => g.subject)).Nodup) :
    (filteredTabular files groups img1).countP (tabKeyIs s v) ≤ 1 := by
  unfold filteredTabular
  refine Nat.le_trans (List.Sublist.countP_le _ (List.filter_sublist _)) ?_
  rw [List.countP_map]
  have hcong : ((mergeGroup (dropDuplicateSubjectVisit files.flatten) groups).countP
      ((tabKeyIs s v) ∘ fillGroupFromImaging img1)) =
      ((mergeGroup (dropDuplicateSubjectVisit files.flatten) groups).countP (tabKeyIs s v)) :=
    countP_congr_local (fun r _ => fill_key_eq img1 s v r)
  rw [hcong, mergeGroup_countP _ s v hg]
  exact dropDuplicateSubjectVisit_countP_le_one _ s v

theorem countP_le_one_of_unique {α : Type} {l : List α} (hl : l.Nodup) (p : α → Bool)
    (h : ∀ x ∈ l, ∀ y ∈ l, p x = true → p y = true → x = y) : l.countP p ≤ 1 := by
  induction l with
  | nil => simp
  | cons a as ih =>
    rw [List.countP_cons]
    by_cases hpa : p a = true
    · have hz : as.countP p = 0 := by
        rw [List.countP_eq_zero]
        intro b hb hpb
        have hba : b = a :=
          h b (List.mem_cons_of_mem a hb) a (List.mem_cons_self a as) hpb hpa
        exact (List.nodup_cons.mp hl).1 (hba ▸ hb)
      rw [hz, hpa, if_pos rfl]
    · have hpa2 : p a = false := (Bool.not_eq_true _).mp hpa
      rw [hpa2, if_neg Bool.false_ne_true]
      have := ih (List.nodup_cons.mp hl).2
        (fun x hx y hy => h x (List.mem_cons_of_mem a hx) y (List.mem_cons_of_mem a hy))
      omega

theorem normalizeImaging_session_eq {vm sm gm : List (String × String)}
    {rows : List ImagingEntry} {out : List ImagingNormalized} {warns : List String}
    (h : normalizeImaging vm sm gm rows = Except.ok (out, warns)) :
    ∀ r ∈ out, r.session = List.lookup r.visit sm := by
  unfold normalizeImaging at h
  cases hfv : rows.find? (fun r => (List.lookup r.visit vm).isNone) with
  | some r' => rw [hfv] at h; simp at h
  | none =>
    rw [hfv] at h
    cases hfg : rows.find? (fun r => (List.lookup r.group gm).isNone) with
    | some r' => rw [hfg] at h; simp at h
    | none =>
      rw [hfg] at h
      simp only [Except.ok.injEq, Prod.mk.injEq] at h
      intro r hr
      rw [← h.1] at hr
      rcases List.mem_map.mp hr with ⟨r0, _, rfl⟩
      rfl

theorem filteredImaging_countP_le_one {img1 : List ImagingNormalized}
    {sm : List (String × String)} (sessions : List String)
    (ddmap : List (String × String)) (s v : String)
    (hsess : ∀ r ∈ img1, r.session = List.lookup r.visit sm) :
    (filteredImaging img1 sessions ddmap).countP (imgKeyIs s v) ≤ 1 := by
  unfold filteredImaging groupImaging
  rw [List.countP_map]
  have hshape : ((imgKeyIs s v) ∘ fun k : String × String × String =>
      ({ subject := k.1, visit := k.2.1, session := k.2.2,
         datatype := get_datatype_list (((((img1.filter (fun r => match r.session with
           | some s => sessions.contains s
           | none => false)).filter (fun r => GROUPS_KEEP.contains r.group)).filter
             (fun r => r.session.isSome)).filter
               (fun r => imagingKeyOf r == k)).map (fun r => r.description)) ddmap }
        : ImagingAgg)) =
      fun k : String × String × String => k.1 == s && k.2.1 == v := rfl
  rw [hshape]
  apply countP_le_one_of_unique (nodup_uniqueFirst _)
  intro x hx y hy hpx hpy
  rcases List.mem_map.mp ((mem_uniqueFirst _ _).mp hx) with ⟨rx, hrx, hkx⟩
  rcases List.mem_map.mp ((mem_uniqueFirst _ _).mp hy) with ⟨ry, hry, hky⟩
  have hrx1 : rx ∈ img1 :=
    List.mem_of_mem_filter (List.mem_of_mem_filter (List.mem_of_mem_filter hrx))
  have hry1 : ry ∈ img1 :=
    List.mem_of_mem_filter (List.mem_of_mem_filter (List.mem_of_mem_filter hry))
  have hx1 : x.1 = s := eq_of_beq ((Bool.and_eq_true _ _).mp hpx).1
  have hx2 : x.2.1 = v := eq_of_beq ((Bool.and_eq_true _ _).mp hpx).2
  have hy1 : y.1 = s := eq_of_beq ((Bool.and_eq_true _ _).mp hpy).1
  have hy2 : y.2.1 = v := eq_of_beq ((Bool.and_eq_true _ _).mp hpy).2
  have hxv : rx.visit = v := by
    have : (imagingKeyOf rx).2.1 = x.2.1 := by rw [hkx]
    rw [← hx2, ← this]
    rfl
  have hyv : ry.visit = v := by
    have : (imagingKeyOf ry).2.1 = y.2.1 := by rw [hky]
    rw [← hy2, ← this]
    rfl
  have hxs : x.2.2 = (List.lookup v sm).getD "" := by
    rw [← hkx]
    show (rx.session).getD "" = (List.lookup v sm).getD ""
    rw [hsess rx hrx1, hxv]
  have hys : y.2.2 = (List.lookup v sm).getD "" := by
    rw [← hky]
    show (ry.session).getD "" = (List.lookup v sm).getD ""
    rw [hsess ry hry1, hyv]
  have : x = (s, v, (List.lookup v sm).getD "") := by
    rcases x with ⟨x1, x2, x3⟩
    simp_all
  have hy' : y = (s, v, (List.lookup v sm).getD "") := by
    rcases y with ⟨y1, y2, y3⟩
    simp_all
  rw [this, hy']

theorem mergedRow_cases {tab : List TabularWithGroup} {img : List ImagingAgg} {r : MergedRow}
    (hr : r ∈ outerMerge tab img) :
    r.datatype = none ∨ ∃ i ∈ img, imgKeyIs r.subject r.visit i = true ∧
      r.datatype = some i.datatype := by
  unfold outerMerge at hr
  rcases List.mem_append.mp hr with h12 | h3
  · rcases List.mem_append.mp h12 with h1 | h2
    · rcases List.mem_flatten.mp h1 with ⟨lt, hlt, hrl⟩
      rcases List.mem_map.mp hlt with ⟨t, ht, rfl⟩
      rcases List.mem_map.mp hrl with ⟨i, hi, rfl⟩
      right
      exact ⟨i, List.mem_of_mem_filter hi, (List.mem_filter.mp hi).2, rfl⟩
    · rcases List.mem_map.mp h2 with ⟨t, ht, rfl⟩
      left
      rfl
  · rcases List.mem_map.mp h3 with ⟨i, hi, rfl⟩
    right
    refine ⟨i, List.mem_of_mem_filter hi, ?_, rfl⟩
    simp [imgKeyIs]

theorem manifest_datatype_empty {tab : List TabularWithGroup} {img : List ImagingAgg}
    {r : ManifestRow} (hr : r ∈ finalizeManifest (outerMerge tab img))
    (hnone : img.countP (imgKeyIs r.subject r.visit) = 0) : r.datatype = [] := by
  unfold finalizeManifest at hr
  have hr2 := ((List.perm_insertionSort manifestLeProp _).mem_iff).mp hr
  rcases List.mem_map.mp hr2 with ⟨m, hm, rfl⟩
  rcases mergedRow_cases hm with hdt | ⟨i, hi, hkey, hdt⟩
  · show m.datatype.getD [] = []
    rw [hdt]
    rfl
  · exact absurd hkey (List.countP_eq_zero.mp hnone i hi)

/-- C3 counterexample: the participant-status table is left-merged into the
tabular data without deduplication (line 191), so a status file with two rows
for one subject duplicates that subject's (subject, visit) rows, and the outer
merge emits the pair twice — the claimed "appears exactly once" fails. -/
theorem C3_counterexample :
    buildManifest [[⟨"S1", "BL"⟩]] [⟨"S1", "Prodromal"⟩, ⟨"S1", "Prodromal"⟩] [] ["1"] [] =
      Except.ok ([⟨"S1", "BL", none, []⟩, ⟨"S1", "BL", none, []⟩], []) ∧
    0 < (filteredTabular [[⟨"S1", "BL"⟩]]
      [⟨"S1", "Prodromal"⟩, ⟨"S1", "Prodromal"⟩] []).countP (tabKeyIs "S1" "BL") ∧
    ¬ (([⟨"S1", "BL", none, []⟩, ⟨"S1", "BL", none, []⟩] : List ManifestRow).countP
      (manifestKeyIs "S1" "BL") = 1) :=
  ⟨by rfl, by decide, by decide⟩

/-- C3 (amended): provided the participant-status table has at most one row
per subject, every (subject, visit) key present in the filtered tabular data
or in the filtered imaging data appears in exactly one manifest row, and any
manifest row whose key matches no filtered imaging record has the empty list
as its datatype value. -/
theorem C3_outer_join_unique (files : List (List TabularEntry)) (groups : List GroupEntry)
    (imaging : List ImagingEntry) (sessions : List String) (dmap : List (String × DescNode))
    (rows : List ManifestRow) (warns : List String) (img1 : List ImagingNormalized)
    (iwarns : List String)
    (hg : (groups.map (fun g => g.subject)).Nodup)
    (hb : buildManifest files groups imaging sessions dmap = Except.ok (rows, warns))
    (hn : normalizeImaging VISIT_IMAGING_MAP VISIT_SESSION_MAP GROUP_IMAGING_MAP imaging =
      Except.ok (img1, iwarns)) :
    (∀ s v, (0 < (filteredTabular files groups img1).countP (tabKeyIs s v) ∨
        0 < (filteredImaging img1 sessions (reverseDescriptionsMap dmap).1).countP
          (imgKeyIs s v)) →
      rows.countP (manifestKeyIs s v) = 1) ∧
    (∀ r ∈ rows, (filteredImaging img1 sessions (reverseDescriptionsMap dmap).1).countP
        (imgKeyIs r.subject r.visit) = 0 → r.datatype = []) := by
  obtain ⟨img1', hn', hrows⟩ := buildManifest_ok_shape hb
  rw [hn] at hn'
  have himg : img1 = img1' := by
    simp only [Except.ok.injEq, Prod.mk.injEq] at hn'
    exact hn'.1
  subst himg
  have harith : ∀ a b : Nat, a ≤ 1 → b ≤ 1 → (0 < a ∨ 0 < b) →
      a * b + (if b = 0 then a else 0) + (if a = 0 then b else 0) = 1 := by
    intro a b ha hb2 hab
    rcases Nat.le_one_iff_eq_zero_or_eq_one.mp ha with rfl | rfl <;>
      rcases Nat.le_one_iff_eq_zero_or_eq_one.mp hb2 with rfl | rfl
    · rcases hab with h | h <;> exact absurd h (by decide)
    · decide
    · decide
    · decide
  constructor
  · intro s v hpos
    rw [hrows, finalizeManifest_countP, outerMerge_countP]
    exact harith _ _ (filteredTabular_countP_le_one files img1 s v hg)
      (filteredImaging_countP_le_one sessions _ s v (normalizeImaging_session_eq hn)) hpos
  · intro r hr hzero
    rw [hrows] at hr
    exact manifest_datatype_empty hr hzero

/-- Witness for `C3_outer_join_unique` at a concrete input with one tabular
row, a duplicate-free status table and no imaging rows. -/
theorem C3_outer_join_unique_witness :
    (∀ s v, (0 < (filteredTabular [[⟨"S1", "BL"⟩]] [⟨"S1", "Prodromal"⟩] []).countP
          (tabKeyIs s v) ∨
        0 < (filteredImaging [] ["1"] (reverseDescriptionsMap []).1).countP (imgKeyIs s v)) →
      ([⟨"S1", "BL", none, []⟩] : List ManifestRow).countP (manifestKeyIs s v) = 1) ∧
    (∀ r ∈ ([⟨"S1", "BL", none, []⟩] : List ManifestRow),
      (filteredImaging [] ["1"] (reverseDescriptionsMap []).1).countP
        (imgKeyIs r.subject r.visit) = 0 → r.datatype = []) :=
  C3_outer_join_unique [[⟨"S1", "BL"⟩]] [⟨"S1", "Prodromal"⟩] [] ["1"] []
    [⟨"S1", "BL", none, []⟩] [] [] [] (by decide) (by rfl) (by rfl)
